import Mathlib

/-!
# Verification of the IA tourism backend against its specification

Shallow embedding of the parts of the repository that the checked claims
are about, together with theorems settling each claim.

Conventions used throughout:
* Python floats and SQL decimals are modeled as rationals (`ℚ`); the one
  genuinely transcendental operation (`np.log`) is modeled with `Real.log`.
* Python `dict.get(key, default)` over optional record fields is modeled
  with `Option.getD`.
* Stateful methods become explicit state passing: every `self.…` field of
  an algorithm object is a field of an explicit state structure, and each
  `while` loop body becomes a step function on that state.
* Database queries become pure functions over an explicit list of rows.
-/

namespace TourismIA

/-- Two-decimal rounding, modeling Python's `round(x, 2)`.  Python rounds
half-to-even on binary floats; the inputs exercised by the claims are never
half-cent ties, so Mathlib's `round` is an adequate model. -/
def round2 (q : ℚ) : ℚ := (round (q * 100) : ℤ) / 100

/-- Python's `str.lower()`.  (`String.toLower` is defined by a recursion
the kernel cannot evaluate; this structurally recursive equivalent maps
`Char.toLower` over the characters.) -/
def strLower (s : String) : String := ⟨s.data.map Char.toLower⟩

/-- A row of the `attractions` table, restricted to the catalog fields read
by the search service (`bfs_algorithm.py`): id, category, rating and price
range.  `rating` and `price_range` are nullable columns. -/
structure AttractionRow where
  id : ℕ
  category : String
  rating : Option ℚ
  price_range : Option String
  deriving Repr, DecidableEq

/-- A row of the `attraction_connections` table (`AttractionConnection`):
a directed edge.  `from` is a Lean keyword, hence `from_id`/`to_id`. -/
structure ConnectionRow where
  from_id : ℕ
  to_id : ℕ
  distance_meters : ℚ
  travel_time_minutes : ℤ
  transport_mode : String
  cost : ℚ
  deriving Repr, DecidableEq

/-- The database state visible to the search service and route optimizer. -/
structure SearchDB where
  attractions : List AttractionRow
  connections : List ConnectionRow
  deriving Repr, DecidableEq

/-! ## Search service: `BFSAlgorithm` (`bfs_algorithm.py`) -/

/-- `BFSAlgorithm._get_neighbors`: outgoing connections of an attraction,
optionally restricted to one transport mode (the mode string is lowercased
by the source before comparison). -/
def getNeighborsBFS (db : SearchDB) (attraction_id : ℕ)
    (transport_mode : Option String) : List ConnectionRow :=
  db.connections.filter fun c =>
    c.from_id == attraction_id &&
      match transport_mode with
      | some m => c.transport_mode == strLower m
      | none => true

/-- `BFSAlgorithm._meets_criteria`: catalog-attribute filters.  Python
truthiness: a `None` or empty filter list disables that check; `min_rating`
is checked whenever it `is not None`; a `NULL` rating or price range fails
the corresponding enabled filter. -/
def meetsCriteria (a : AttractionRow) (category_filter : Option (List String))
    (min_rating : Option ℚ) (price_range_filter : Option (List String)) : Bool :=
  (match category_filter with
   | some cats =>
       if cats.isEmpty then true
       else (cats.map strLower).contains a.category
   | none => true) &&
  (match min_rating with
   | some mr =>
       match a.rating with
       | none => false
       | some r => decide (mr ≤ r)
   | none => true) &&
  (match price_range_filter with
   | some ps =>
       if ps.isEmpty then true
       else match a.price_range with
         | some p => (ps.map strLower).contains p
         | none => false
   | none => true)

/-- `BFSNode`: an entry of the BFS queue. -/
structure BFSNode where
  attraction_id : ℕ
  depth : ℕ
  distance_from_start : ℚ
  time_from_start : ℤ
  parent_id : Option ℕ
  deriving Repr, DecidableEq

/-- One candidate produced by the exploration (the source stores the
attraction object plus depth/distance/time/parent; distance is rounded to
two decimals on insertion). -/
structure BFSCandidate where
  attraction : AttractionRow
  depth : ℕ
  distance_from_start : ℚ
  time_from_start : ℤ
  parent_id : Option ℕ
  deriving Repr, DecidableEq

/-- The mutable state of `BFSAlgorithm.explore`'s `while` loop:
`self.visited`, `self.graph_structure`, the local queue, candidate list,
explored counter and deepest level. -/
structure BFSState where
  queue : List BFSNode
  visited : List ℕ
  candidates : List BFSCandidate
  explored_count : ℕ
  max_level_reached : ℕ
  graph_structure : List (ℕ × List ℕ)
  deriving Repr, DecidableEq

/-- Non-default parameters of `BFSAlgorithm.explore`. -/
structure BFSParams where
  max_radius_meters : ℚ
  max_time_minutes : ℤ
  max_candidates : ℕ
  max_depth : ℕ
  category_filter : Option (List String)
  min_rating : Option ℚ
  price_range_filter : Option (List String)
  transport_mode : Option String
  deriving Repr, DecidableEq

/-- The defaults of `explore`'s keyword parameters. -/
def BFSParams.default : BFSParams :=
  ⟨10000, 480, 50, 5, none, none, none, none⟩

/-- The `while` loop guard of `explore`, negated: the loop has terminated
once the queue is empty or `max_candidates` candidates were collected. -/
def bfsDone (p : BFSParams) (s : BFSState) : Bool :=
  s.queue.isEmpty || p.max_candidates ≤ s.candidates.length

/-- One iteration of the `while` loop of `BFSAlgorithm.explore`.
States on which the loop guard fails are left unchanged, so iterating
`bfsStep` past termination is harmless.  The branch order mirrors the
source: visited check, depth check, mark visited / count, attraction
lookup, catalog filters (failing them skips candidacy *and* neighbor
expansion), candidacy for depth > 0, neighbor enqueueing guarded by the
radius and time bounds. -/
def bfsStep (db : SearchDB) (p : BFSParams) (s : BFSState) : BFSState :=
  if bfsDone p s then s else
  match s.queue with
  | [] => s
  | cur :: rest =>
    if cur.attraction_id ∈ s.visited then { s with queue := rest }
    else if p.max_depth < cur.depth then { s with queue := rest }
    else
      let visited' := s.visited ++ [cur.attraction_id]
      let explored' := s.explored_count + 1
      let level' := max s.max_level_reached cur.depth
      match db.attractions.find? (fun a => a.id == cur.attraction_id) with
      | none =>
          { s with queue := rest, visited := visited', explored_count := explored',
                   max_level_reached := level' }
      | some attr =>
        if ¬ meetsCriteria attr p.category_filter p.min_rating p.price_range_filter then
          { s with queue := rest, visited := visited', explored_count := explored',
                   max_level_reached := level' }
        else
          let candidates' :=
            if 0 < cur.depth then
              s.candidates ++ [⟨attr, cur.depth, round2 cur.distance_from_start,
                                cur.time_from_start, cur.parent_id⟩]
            else s.candidates
          let neighbors := getNeighborsBFS db cur.attraction_id p.transport_mode
          let pushes := neighbors.filterMap fun c =>
            if c.to_id ∈ visited' then none
            else
              let nd := cur.distance_from_start + c.distance_meters
              let nt := cur.time_from_start + c.travel_time_minutes
              if p.max_radius_meters < nd then none
              else if p.max_time_minutes < nt then none
              else some ⟨c.to_id, cur.depth + 1, nd, nt, some cur.attraction_id⟩
          { queue := rest ++ pushes, visited := visited', candidates := candidates',
            explored_count := explored', max_level_reached := level',
            graph_structure := s.graph_structure ++ [(cur.attraction_id, neighbors.map (·.to_id))] }

/-- The initial loop state of `explore`: the queue holds the start node at
depth 0, distance 0 and time 0; everything else is empty. -/
def bfsInit (start_attraction_id : ℕ) : BFSState :=
  ⟨[⟨start_attraction_id, 0, 0, 0, none⟩], [], [], 0, 0, []⟩

/-- `BFSResult` of `explore`. -/
structure BFSResult where
  candidates : List BFSCandidate
  explored_count : ℕ
  levels_explored : ℕ
  graph_structure : List (ℕ × List ℕ)
  start_attraction_id : ℕ
  deriving Repr, DecidableEq

/-- `BFSAlgorithm.explore`: checks that the start attraction exists (else
`ValueError`), then runs the loop to completion.  The source's `while`
loop terminates on every input; `fuel` bounds the number of iterations in
this embedding, and once the guard fails further iterations are no-ops. -/
def explore (db : SearchDB) (start_attraction_id : ℕ) (p : BFSParams)
    (fuel : ℕ) : Except String BFSResult :=
  match db.attractions.find? (fun a => a.id == start_attraction_id) with
  | none => .error "Atraccion de inicio no encontrada"
  | some _ =>
      let s := (bfsStep db p)^[fuel] (bfsInit start_attraction_id)
      .ok ⟨s.candidates, s.explored_count, s.max_level_reached,
           s.graph_structure, start_attraction_id⟩

/-! ## Authentication service: `UserService` (`auth/service.py`) -/

/-- A row of the `users` table. -/
structure UserRow where
  id : ℕ
  email : String
  hashed_password : String
  full_name : String
  is_active : Bool
  deriving Repr, DecidableEq

/-- The `UserCreate` input schema. -/
structure UserCreate where
  email : String
  password : String
  full_name : String
  is_active : Bool
  deriving Repr, DecidableEq

/-- An error raised through `HTTPException`: status code plus detail. -/
structure HTTPError where
  status_code : ℕ
  detail : String
  deriving Repr, DecidableEq

/-- The users table plus the autoincrement counter assigning the next id. -/
structure UserDB where
  users : List UserRow
  next_id : ℕ
  deriving Repr, DecidableEq

/-- `UserService.create_user`: duplicate-email check, then insert a row
storing `get_password_hash(password)`.  The bcrypt primitive is the
external boundary, passed as the function `hash`.  The source's inner
`try/except` only converts database faults into a 500; the store itself is
modeled as always succeeding.  Returns the created row and the new
database state. -/
def create_user (hash : String → String) (db : UserDB) (user_in : UserCreate) :
    Except HTTPError (UserRow × UserDB) :=
  match db.users.find? (fun u => u.email == user_in.email) with
  | some _ => .error ⟨400, "El email ya esta registrado."⟩
  | none =>
      let u : UserRow := ⟨db.next_id, user_in.email, hash user_in.password,
                          user_in.full_name, user_in.is_active⟩
      .ok (u, ⟨db.users ++ [u], db.next_id + 1⟩)

/-! ## ML feature normalization (`neural_network.py`) -/

/-- The feature dictionary consumed by
`AttractionScorerNetwork.normalize_features`; every key may be absent
(`dict.get` with a default). -/
structure NNFeatures where
  rating : Option ℝ
  total_reviews : Option ℝ
  google_rating : Option ℝ
  google_reviews : Option ℝ
  foursquare_rating : Option ℝ
  foursquare_popularity : Option ℝ
  foursquare_checkins : Option ℝ
  sentiment_score : Option ℝ
  sentiment_positive_pct : Option ℝ
  price_level : Option ℝ
  has_accessibility : Option ℝ
  is_verified : Option ℝ
  category_encoded : Option ℝ

/-- The all-absent feature dictionary (`{}` in Python). -/
def nnFeaturesEmpty : NNFeatures :=
  ⟨none, none, none, none, none, none, none, none, none, none, none, none, none⟩

/-- `MAX_REVIEWS_LOG = np.log(10000 + 1)`. -/
noncomputable def MAX_REVIEWS_LOG : ℝ := Real.log 10001

/-- `MAX_CHECKINS_LOG = np.log(100000 + 1)`. -/
noncomputable def MAX_CHECKINS_LOG : ℝ := Real.log 100001

open scoped Classical in
/-- `AttractionScorerNetwork.normalize_features`: the 13-entry array, in
index order 0–12.  `np.log` is modeled by `Real.log`; Python truthiness of
the accessibility/verified values means "nonzero". -/
noncomputable def normalize_features (f : NNFeatures) : List ℝ :=
  [ min ((f.rating.getD 0) / 5) 1,
    Real.log (max (f.total_reviews.getD 0) 0 + 1) / MAX_REVIEWS_LOG,
    min ((f.google_rating.getD 0) / 5) 1,
    Real.log (max (f.google_reviews.getD 0) 0 + 1) / MAX_REVIEWS_LOG,
    min ((f.foursquare_rating.getD 0) / 10) 1,
    min (max (f.foursquare_popularity.getD 0) 0) 1,
    Real.log (max (f.foursquare_checkins.getD 0) 0 + 1) / MAX_CHECKINS_LOG,
    (f.sentiment_score.getD 0 + 1) / 2,
    min ((f.sentiment_positive_pct.getD 50) / 100) 1,
    min (max (f.price_level.getD 0.5) 0) 1,
    if f.has_accessibility.getD 0 ≠ 0 then 1 else 0,
    if f.is_verified.getD 0 ≠ 0 then 1 else 0,
    min (max (f.category_encoded.getD 0.5) 0) 1 ]

/-! ## Itinerary generator ranking (`itinerary_generator/service.py`) -/

/-- One BFS candidate as read by `_rank_candidates`: the serialized
attraction dictionary plus the BFS `distance_from_start_meters`. -/
structure RankCandidate where
  rating : Option ℚ
  category : Option String
  price_range : Option String
  amenities : List String
  distance_from_start_meters : Option ℚ
  deriving Repr, DecidableEq

/-- The computed-profile dictionary fields read by `_rank_candidates`. -/
structure ComputedProfile where
  priority_categories : Option (List String)
  recommended_categories : Option (List String)
  avoid_categories : Option (List String)
  allowed_price_ranges : Option (List String)
  required_amenities : Option (List String)
  min_rating : Option ℚ
  deriving Repr, DecidableEq

/-- The loop body of `_rank_candidates`, scoring one candidate.
`attr.get('rating') or 3.0` defaults a missing *or falsy (zero)* rating to
3.0.  `len(required_amenities - attr_amenities)` counts distinct required
amenities that are missing (Python set difference). -/
def rankScore (profile : ComputedProfile) (c : RankCandidate) : ℚ :=
  let rating : ℚ := match c.rating with
    | some r => if r = 0 then 3 else r
    | none => 3
  let base := rating * 10
  let cat := strLower (c.category.getD "")
  let s1 := if (profile.priority_categories.getD []).contains cat then base + 30
    else if (profile.recommended_categories.getD []).contains cat then base + 15
    else if (profile.avoid_categories.getD []).contains cat then base - 50
    else base
  let price := strLower (c.price_range.getD "")
  let s2 :=
    if ¬ (profile.allowed_price_ranges.getD
        ["gratis", "bajo", "medio", "alto"]).contains price then s1 - 100 else s1
  let missing := ((profile.required_amenities.getD []).dedup.filter
      (fun a => ¬ c.amenities.contains a)).length
  let s3 := s2 - missing * 40
  let s4 := if rating < profile.min_rating.getD 0 then s3 - 50 else s3
  round2 (s4 - (c.distance_from_start_meters.getD 0) / 1000)

/-- A scored candidate, as stored in `scored_list`. -/
structure ScoredCandidate where
  candidate : RankCandidate
  score : ℚ
  deriving Repr, DecidableEq

/-- Stable descending insertion: the element is placed before the first
strictly-smaller score and after equal scores already present. -/
def insertDesc (x : ScoredCandidate) : List ScoredCandidate → List ScoredCandidate
  | [] => [x]
  | y :: ys => if y.score ≤ x.score then x :: y :: ys else y :: insertDesc x ys

/-- Stable descending sort, the semantics of Python's stable
`list.sort(key=lambda x: x['score'], reverse=True)`. -/
def sortDesc : List ScoredCandidate → List ScoredCandidate
  | [] => []
  | x :: xs => insertDesc x (sortDesc xs)

/-- `ItineraryGeneratorService._rank_candidates`: score every candidate,
sort descending (stably), then keep only scores strictly above −50. -/
def rank_candidates (profile : ComputedProfile) (candidates : List RankCandidate) :
    List ScoredCandidate :=
  (sortDesc (candidates.map (fun c => ⟨c, rankScore profile c⟩))).filter
    (fun x => -50 < x.score)

/-- The ranking formula as the claim words it, with the 3.0 default taken
*literally*: it applies only when the rating key is absent, not when the
stored rating is 0.  Used to exhibit the divergence from the code. -/
def claimScoreLiteral (profile : ComputedProfile) (c : RankCandidate) : ℚ :=
  let rating : ℚ := c.rating.getD 3
  let cat := strLower (c.category.getD "")
  let catAdj : ℚ :=
    if (profile.priority_categories.getD []).contains cat then 30
    else if (profile.recommended_categories.getD []).contains cat then 15
    else if (profile.avoid_categories.getD []).contains cat then -50
    else 0
  let price := strLower (c.price_range.getD "")
  let priceAdj : ℚ :=
    if ¬ (profile.allowed_price_ranges.getD
        ["gratis", "bajo", "medio", "alto"]).contains price then -100 else 0
  let missing := ((profile.required_amenities.getD []).dedup.filter
      (fun a => ¬ c.amenities.contains a)).length
  let ratingAdj : ℚ := if rating < profile.min_rating.getD 0 then -50 else 0
  round2 (rating * 10 + catAdj + priceAdj - missing * 40 + ratingAdj
    - (c.distance_from_start_meters.getD 0) / 1000)

/-- The ranking formula as the *amended* claim words it: identical to
`claimScoreLiteral` except that the 3.0 default also applies to a stored
rating of 0 (Python falsiness), matching the code. -/
def claimScore (profile : ComputedProfile) (c : RankCandidate) : ℚ :=
  let rating : ℚ := match c.rating with
    | some r => if r = 0 then 3 else r
    | none => 3
  let cat := strLower (c.category.getD "")
  let catAdj : ℚ :=
    if (profile.priority_categories.getD []).contains cat then 30
    else if (profile.recommended_categories.getD []).contains cat then 15
    else if (profile.avoid_categories.getD []).contains cat then -50
    else 0
  let price := strLower (c.price_range.getD "")
  let priceAdj : ℚ :=
    if ¬ (profile.allowed_price_ranges.getD
        ["gratis", "bajo", "medio", "alto"]).contains price then -100 else 0
  let missing := ((profile.required_amenities.getD []).dedup.filter
      (fun a => ¬ c.amenities.contains a)).length
  let ratingAdj : ℚ := if rating < profile.min_rating.getD 0 then -50 else 0
  round2 (rating * 10 + catAdj + priceAdj - missing * 40 + ratingAdj
    - (c.distance_from_start_meters.getD 0) / 1000)

/-! ## Weather service (`external_apis/weather.py`) -/

/-- A JSON-ish value inside a weather payload dictionary. -/
inductive WVal where
  | s (v : String)
  | q (v : ℚ)
  | b (v : Bool)
  | time
  | none
  deriving Repr, DecidableEq

/-- The fields `_parse_current_weather` reads out of a successful
OpenWeatherMap response; each may be absent. -/
structure RawWeatherData where
  weather_main : Option String
  description : Option String
  temp : Option ℚ
  feels_like : Option ℚ
  temp_min : Option ℚ
  temp_max : Option ℚ
  humidity : Option ℚ
  wind_speed : Option ℚ
  clouds_all : Option ℚ
  visibility : Option ℚ
  deriving Repr, DecidableEq

/-- `WeatherService.CONDITION_MAP`. -/
def CONDITION_MAP : List (String × String) :=
  [("Thunderstorm", "storm"), ("Drizzle", "rain"), ("Rain", "rain"),
   ("Snow", "snow"), ("Clear", "sunny"), ("Clouds", "cloudy"),
   ("Mist", "foggy"), ("Fog", "foggy"), ("Haze", "hazy")]

/-- One-decimal rounding, Python's `round(x, 1)` (see `round2`). -/
def round1 (q : ℚ) : ℚ := (round (q * 10) : ℤ) / 10

/-- `WeatherService._is_outdoor_friendly`. -/
def is_outdoor_friendly (condition : String) (temp : Option ℚ) : Bool :=
  let t := temp.getD 25
  if (["Thunderstorm", "Rain", "Snow", "Fog"]).contains condition then false
  else if t < 10 || 35 < t then false
  else true

/-- Wrap an optional numeric value as a payload value (`dict.get` yields
`None` for absent keys). -/
def optQ : Option ℚ → WVal
  | some v => .q v
  | Option.none => .none

/-- `WeatherService._parse_current_weather`. -/
def parse_current_weather (d : RawWeatherData) : List (String × WVal) :=
  let condition_raw := d.weather_main.getD "Clear"
  [("condition", .s ((CONDITION_MAP.lookup condition_raw).getD "sunny")),
   ("condition_raw", .s condition_raw),
   ("description", .s (d.description.getD "")),
   ("temperature", optQ d.temp),
   ("feels_like", optQ d.feels_like),
   ("temp_min", optQ d.temp_min),
   ("temp_max", optQ d.temp_max),
   ("humidity", optQ d.humidity),
   ("wind_speed", optQ d.wind_speed),
   ("wind_speed_kmh", .q (round1 ((d.wind_speed.getD 0) * 36 / 10))),
   ("clouds_percent", .q (d.clouds_all.getD 0)),
   ("visibility_meters", optQ d.visibility),
   ("timestamp", .time),
   ("is_outdoor_friendly", .b (is_outdoor_friendly condition_raw d.temp))]

/-- `WeatherService._get_default_weather`: the fixed fallback payload,
carrying `is_default = True`. -/
def default_weather : List (String × WVal) :=
  [("condition", .s "sunny"),
   ("condition_raw", .s "Clear"),
   ("description", .s "Cielo despejado"),
   ("temperature", .q 25),
   ("feels_like", .q 25),
   ("humidity", .q 50),
   ("wind_speed_kmh", .q 10),
   ("is_outdoor_friendly", .b true),
   ("timestamp", .time),
   ("is_default", .b true)]

/-- `WeatherService.get_current_weather`: the whole request/parse block is
inside `try`; any failure (including an unconfigured or rejected API key)
yields the default payload.  The HTTP boundary is the `fetch` argument. -/
def get_current_weather (fetch : Except Unit RawWeatherData) : List (String × WVal) :=
  match fetch with
  | .ok d => parse_current_weather d
  | .error _ => default_weather

/-- `WeatherService.get_weather_context_for_rules`: reshapes the current
weather into `{"weather": {…}}` for the rules engine, reading exactly five
keys (`dict.get`, `None` when absent). -/
def get_weather_context_for_rules (fetch : Except Unit RawWeatherData) :
    List (String × List (String × WVal)) :=
  let weather := get_current_weather fetch
  [("weather",
    [("condition", (weather.lookup "condition").getD .none),
     ("temperature", (weather.lookup "temperature").getD .none),
     ("is_outdoor_friendly", (weather.lookup "is_outdoor_friendly").getD .none),
     ("humidity", (weather.lookup "humidity").getD .none),
     ("wind_kmh", (weather.lookup "wind_speed_kmh").getD .none)])]

/-! ## ML score cache (`inference.py`, `ScoreCache`) -/

/-- `ScoreCache` state: attraction id ↦ (score, timestamp); timestamps are
absolute seconds (`datetime` modeled as seconds since an epoch). -/
structure ScoreCache where
  cache : List (ℕ × ℚ × ℕ)
  max_size : ℕ
  ttl_seconds : ℕ
  deriving Repr, DecidableEq

/-- `timedelta.seconds` of `now - ts` (for `now ≥ ts`): Python normalizes
a timedelta into days plus a seconds-of-day component in `[0, 86400)`, and
`.seconds` is that component — *not* the total elapsed seconds. -/
def timedeltaSeconds (now ts : ℕ) : ℕ := (now - ts) % 86400

/-- `ScoreCache.get`: hit iff the entry exists and
`(datetime.now() - timestamp).seconds < self._ttl_seconds`; otherwise the
entry is deleted and `None` returned.  Returns result plus new state. -/
def ScoreCache.get (c : ScoreCache) (now : ℕ) (attraction_id : ℕ) :
    Option ℚ × ScoreCache :=
  match c.cache.lookup attraction_id with
  | some (score, ts) =>
      if timedeltaSeconds now ts < c.ttl_seconds then (some score, c)
      else (Option.none, { c with cache := c.cache.filter (fun e => e.1 != attraction_id) })
  | Option.none => (Option.none, c)

/-! ## Scoring service reads (`inference.py`, `ScoringService`) -/

/-- An `attractions` row as read by the scoring service. -/
structure ScoredRow where
  id : ℕ
  destination_id : ℕ
  category : String
  nn_score : Option ℚ
  deriving Repr, DecidableEq

/-- The truthiness coercion `float(a.nn_score) if a.nn_score else 0.5`:
`NULL` and `0` are both falsy, hence replaced by the neutral 0.5. -/
def reportedScore (nn_score : Option ℚ) : ℚ :=
  match nn_score with
  | some v => if v = 0 then 0.5 else v
  | Option.none => 0.5

/-- `ScoringService.get_scores_dict`: empty input short-circuits; otherwise
each matching row contributes `id ↦ reported score`. -/
def get_scores_dict (rows : List ScoredRow) (attraction_ids : List ℕ) :
    List (ℕ × ℚ) :=
  if attraction_ids.isEmpty then []
  else (rows.filter (fun r => attraction_ids.contains r.id)).map
    (fun r => (r.id, reportedScore r.nn_score))

/-- The `ORDER BY nn_score DESC` sort key: PostgreSQL places NULLs first
under `DESC`, modeled by mapping `NULL` to `⊤`. -/
def nnDescKey : Option ℚ → WithTop ℚ
  | some v => (v : WithTop ℚ)
  | Option.none => ⊤

/-- Stable insertion for the descending `nn_score` order. -/
def insertRowDesc (x : ScoredRow) : List ScoredRow → List ScoredRow
  | [] => [x]
  | y :: ys => if nnDescKey y.nn_score ≤ nnDescKey x.nn_score then x :: y :: ys
               else y :: insertRowDesc x ys

/-- Sort rows by `nn_score` descending (NULLs first). -/
def sortByNNDesc : List ScoredRow → List ScoredRow
  | [] => []
  | x :: xs => insertRowDesc x (sortByNNDesc xs)

/-- `ScoringService.get_top_scored_attractions`: filter by destination and
optional category, order by `nn_score` descending, truncate to `limit`,
and pair each row with its reported score. -/
def get_top_scored_attractions (rows : List ScoredRow) (destination_id : ℕ)
    (limit : ℕ) (category : Option String) : List (ScoredRow × ℚ) :=
  let q := rows.filter (fun r => r.destination_id == destination_id)
  let q := match category with
    | some c => q.filter (fun r => r.category == c)
    | Option.none => q
  ((sortByNNDesc q).take limit).map (fun r => (r, reportedScore r.nn_score))

/-! ## Route optimizer: weights, heuristics, edge costs (`heuristics.py`) -/

/-- An optimization-mode weight vector. -/
structure OptWeights where
  distance : ℚ
  time : ℚ
  cost : ℚ
  score : ℚ
  deriving Repr, DecidableEq

/-- `get_optimization_weights`: the fixed per-mode table, defaulting to
`balanced` for unknown modes (`dict.get`). -/
def get_optimization_weights (mode : String) : OptWeights :=
  if mode = "distance" then ⟨0.7, 0.2, 0.1, 0⟩
  else if mode = "time" then ⟨0.1, 0.7, 0.1, 0.1⟩
  else if mode = "cost" then ⟨0.2, 0.2, 0.6, 0⟩
  else if mode = "balanced" then ⟨0.3, 0.3, 0.2, 0.2⟩
  else if mode = "score" then ⟨0.1, 0.2, 0.1, 0.6⟩
  else ⟨0.3, 0.3, 0.2, 0.2⟩

/-- `CostCalculator.calculate_edge_cost`: normalized, capped terms and an
inverted suitability score, blended by the active weight vector. -/
def calculate_edge_cost (w : OptWeights) (distance_meters : ℚ)
    (travel_time_minutes : ℤ) (cost : ℚ) (suitability_score : ℚ) : ℚ :=
  let distance_normalized := min 1 (distance_meters / 10000)
  let time_normalized := min 1 ((travel_time_minutes : ℚ) / 120)
  let cost_normalized := min 1 (cost / 100)
  let score_normalized :=
    if 0 < suitability_score then 1 - suitability_score / 100 else 0
  w.distance * distance_normalized + w.time * time_normalized +
    w.cost * cost_normalized + w.score * score_normalized

/-- `Heuristics.zero_heuristic`: always 0 (reduces A* to Dijkstra).  The
`euclidean`/`manhattan` heuristics query PostGIS geography columns, an
external boundary; they enter the embedding as function parameters. -/
def zero_heuristic : AttractionRow → AttractionRow → ℚ := fun _ _ => 0

/-- `AStar._get_heuristic_function`: name-based selection, defaulting to
the euclidean heuristic. -/
def get_heuristic_function (heuristic_type : String)
    (euclidean manhattan : AttractionRow → AttractionRow → ℚ) :
    AttractionRow → AttractionRow → ℚ :=
  if heuristic_type = "euclidean" then euclidean
  else if heuristic_type = "manhattan" then manhattan
  else if heuristic_type = "zero" then zero_heuristic
  else euclidean

/-! ## Route optimizer: the A* core (`a_star.py`) -/

/-- `AStarNode`: id, g, h and parent; `f_cost` is computed as `g + h` in
`__post_init__` and exposed here as the function `f`. -/
structure AStarNode where
  attraction_id : ℕ
  g_cost : ℚ
  h_cost : ℚ
  parent_id : Option ℕ
  deriving Repr, DecidableEq

/-- `f_cost = g_cost + h_cost`. -/
def AStarNode.f (n : AStarNode) : ℚ := n.g_cost + n.h_cost

/-- Suitability-score lookup: 0 when the dict is absent/empty or the key
is missing. -/
def scoreOf (scores : List (ℕ × ℚ)) (v : ℕ) : ℚ := (scores.lookup v).getD 0

/-- `AStar._get_neighbors`: outgoing connections (no mode filter). -/
def getNeighborsA (db : SearchDB) (attraction_id : ℕ) : List ConnectionRow :=
  db.connections.filter (fun c => c.from_id == attraction_id)

/-- `AStar._calculate_edge_cost` for one connection. -/
def edgeCost (w : OptWeights) (scores : List (ℕ × ℚ)) (c : ConnectionRow) : ℚ :=
  calculate_edge_cost w c.distance_meters c.travel_time_minutes c.cost
    (scoreOf scores c.to_id)

/-- `heappop` on the open set.  The source's binary heap orders nodes by
`f_cost` alone (`AStarNode.__lt__`) and leaves tie order unspecified; the
embedding resolves ties to the earliest-inserted minimal node.  Returns
the popped node and the remaining list. -/
def popMin : List AStarNode → Option (AStarNode × List AStarNode)
  | [] => Option.none
  | n :: rest =>
    match popMin rest with
    | Option.none => some (n, [])
    | some (m, rest') => if n.f ≤ m.f then some (n, rest) else some (m, n :: rest')

/-- The mutable state of `AStar.find_path`: open set, closed set (in
closing order), `came_from` and `g_scores` (dictionaries as
newest-first association lists) and `self.nodes_explored`. -/
structure AState where
  open_set : List AStarNode
  closed_set : List ℕ
  came_from : List (ℕ × ℕ)
  g_scores : List (ℕ × ℚ)
  nodes_explored : ℕ
  deriving Repr, DecidableEq

/-- A per-edge segment of a built route.

Modelled from the spec: `path_generator.py` (`PathGenerator`,
`OptimizedRoute`) is imported by `a_star.py` but missing from the source
tree; §4.10 specifies "per-edge segments with distance/time/mode/cost". -/
structure RouteSegment where
  from_attraction_id : ℕ
  to_attraction_id : ℕ
  distance_meters : ℚ
  travel_time_minutes : ℤ
  transport_mode : String
  cost : ℚ
  deriving Repr, DecidableEq

/-- The result of a single-pair search.

Modelled from the spec (missing `path_generator.py`), §4.10: "ordered
attraction list, per-edge segments …, and summary totals", plus an
explicit "no path found" result carrying the exploration count. -/
structure OptimizedRoute where
  path_found : Bool
  attractions : List ℕ
  segments : List RouteSegment
  total_distance : ℚ
  total_time : ℤ
  total_cost : ℚ
  nodes_explored : ℕ
  optimization_mode : String
  deriving Repr, DecidableEq

/-- Walk `came_from` parent pointers from `cur`, prepending ancestors;
`fuel` bounds the walk (the chain is acyclic in reachable states).

Modelled from the spec (missing `path_generator.py`), §4.10/§4.9:
reconstruction "walks the parent-pointer chain … back to the start". -/
def walkParents (cf : List (ℕ × ℕ)) : ℕ → ℕ → List ℕ
  | 0, cur => [cur]
  | fuel + 1, cur =>
    match cf.lookup cur with
    | some p => walkParents cf fuel p ++ [cur]
    | Option.none => [cur]

/-- `PathGenerator.reconstruct_path`, modelled from the spec (missing
`path_generator.py`). -/
def reconstruct_path (cf : List (ℕ × ℕ)) (goal_id : ℕ) : List ℕ :=
  walkParents cf (cf.length + 1) goal_id

/-- The segment for one consecutive pair of a reconstructed path: the
first stored connection between the pair.

Modelled from the spec (missing `path_generator.py`). -/
def segmentFor (db : SearchDB) (u v : ℕ) : RouteSegment :=
  match db.connections.find? (fun c => c.from_id == u && c.to_id == v) with
  | some c => ⟨c.from_id, c.to_id, c.distance_meters, c.travel_time_minutes,
               c.transport_mode, c.cost⟩
  | Option.none => ⟨u, v, 0, 0, "", 0⟩

/-- Segments of a reconstructed path (consecutive pairs).

Modelled from the spec (missing `path_generator.py`). -/
def segmentsOf (db : SearchDB) : List ℕ → List RouteSegment
  | u :: v :: rest => segmentFor db u v :: segmentsOf db (v :: rest)
  | _ => []

/-- `PathGenerator.build_route`, modelled from the spec (missing
`path_generator.py`): ordered attraction list, per-edge segments, and
summary totals as sums over the segments. -/
def build_route (db : SearchDB) (path : List ℕ) (nodes_explored : ℕ)
    (mode : String) : OptimizedRoute :=
  let segs := segmentsOf db path
  ⟨true, path, segs, (segs.map (·.distance_meters)).sum,
   (segs.map (·.travel_time_minutes)).sum, (segs.map (·.cost)).sum,
   nodes_explored, mode⟩

/-- `PathGenerator.create_empty_route`, modelled from the spec (missing
`path_generator.py`): explicit "no path found" result carrying the
exploration count. -/
def create_empty_route (nodes_explored : ℕ) (mode : String) : OptimizedRoute :=
  ⟨false, [], [], 0, 0, 0, nodes_explored, mode⟩

/-- The relaxation of one neighbor connection inside the expansion loop of
`find_path`: closed neighbors are skipped; a strictly better tentative g
updates `g_scores` and `came_from` and, when the neighbor attraction row
exists, pushes a new open node carrying the recomputed heuristic. -/
def relaxOne (db : SearchDB) (w : OptWeights) (scores : List (ℕ × ℚ))
    (h : AttractionRow → AttractionRow → ℚ) (end_attr : AttractionRow)
    (cur : AStarNode) (st : AState) (c : ConnectionRow) : AState :=
  if st.closed_set.contains c.to_id then st
  else
    let tentative := cur.g_cost + edgeCost w scores c
    let better := match st.g_scores.lookup c.to_id with
      | some g0 => decide (tentative < g0)
      | Option.none => true
    if better then
      let st' := { st with g_scores := (c.to_id, tentative) :: st.g_scores,
                           came_from := (c.to_id, cur.attraction_id) :: st.came_from }
      match db.attractions.find? (fun a => a.id == c.to_id) with
      | some nattr =>
          { st' with open_set := st'.open_set ++
              [⟨c.to_id, tentative, h nattr end_attr, some cur.attraction_id⟩] }
      | Option.none => st'
    else st

/-- The `while` loop of `AStar.find_path`: `fuel` is the number of
iterations still allowed by `max_iterations` (the counter increments once
per pop, so `fuel = max_iterations - nodes_explored`).  Order of checks
mirrors the source: pop, count, goal test, closed test, close and relax.
Explicit state passing: the final `AState` is returned with the route. -/
def astarLoop (db : SearchDB) (w : OptWeights) (scores : List (ℕ × ℚ))
    (h : AttractionRow → AttractionRow → ℚ) (end_attr : AttractionRow)
    (goal_id : ℕ) (mode : String) :
    ℕ → AState → OptimizedRoute × AState
  | 0, st => (create_empty_route st.nodes_explored mode, st)
  | fuel + 1, st =>
    match popMin st.open_set with
    | Option.none => (create_empty_route st.nodes_explored mode, st)
    | some (cur, rest) =>
      let st1 := { st with open_set := rest, nodes_explored := st.nodes_explored + 1 }
      if cur.attraction_id == goal_id then
        (build_route db (reconstruct_path st1.came_from goal_id)
           st1.nodes_explored mode, st1)
      else if st1.closed_set.contains cur.attraction_id then
        astarLoop db w scores h end_attr goal_id mode fuel st1
      else
        let st2 := { st1 with closed_set := st1.closed_set ++ [cur.attraction_id] }
        let st3 := (getNeighborsA db cur.attraction_id).foldl
          (relaxOne db w scores h end_attr cur) st2
        astarLoop db w scores h end_attr goal_id mode fuel st3

/-- The initial `find_path` state: `g_scores = {start: 0}` and one open
node with `g = 0` and the start-to-goal heuristic. -/
def astarInit (h : AttractionRow → AttractionRow → ℚ)
    (start_attr end_attr : AttractionRow) : AState :=
  ⟨[⟨start_attr.id, 0, h start_attr end_attr, Option.none⟩], [], [],
   [(start_attr.id, 0)], 0⟩

/-- `AStar.find_path`: existence checks (`ValueError` on a missing start
or goal), then the loop.  Returns the route and final state. -/
def find_path (db : SearchDB) (mode : String)
    (h : AttractionRow → AttractionRow → ℚ) (scores : List (ℕ × ℚ))
    (start_id end_id : ℕ) (max_iterations : ℕ) :
    Except String (OptimizedRoute × AState) :=
  match db.attractions.find? (fun a => a.id == start_id) with
  | Option.none => .error "Atraccion de inicio no encontrada"
  | some start_attr =>
    match db.attractions.find? (fun a => a.id == end_id) with
    | Option.none => .error "Atraccion destino no encontrada"
    | some end_attr =>
      .ok (astarLoop db (get_optimization_weights mode) scores h end_attr
        end_id mode max_iterations (astarInit h start_attr end_attr))

/-! ## Shortest-path specification (for the Dijkstra-equivalence claim) -/

/-- `ConnPath db a b p`: `p` is a chain of stored connections leading from
attraction `a` to attraction `b`. -/
inductive ConnPath (db : SearchDB) : ℕ → ℕ → List ConnectionRow → Prop
  | nil (a : ℕ) : ConnPath db a a []
  | cons {a b : ℕ} {c : ConnectionRow} {p : List ConnectionRow} :
      c ∈ db.connections → c.from_id = a → ConnPath db c.to_id b p →
      ConnPath db a b (c :: p)

/-- Total accumulated edge cost of a connection chain. -/
def pathCost (w : OptWeights) (scores : List (ℕ × ℚ))
    (p : List ConnectionRow) : ℚ :=
  (p.map (edgeCost w scores)).sum

/-- `d` is the minimum cost over all stored-connection paths from `s` to
`t`: attained by some path, and a lower bound of every path. -/
def IsShortestCost (db : SearchDB) (w : OptWeights) (scores : List (ℕ × ℚ))
    (s t : ℕ) (d : ℚ) : Prop :=
  (∃ p, ConnPath db s t p ∧ pathCost w scores p = d) ∧
  ∀ p, ConnPath db s t p → d ≤ pathCost w scores p

/-- The node sequence traced by a connection chain starting at `s`. -/
def pathNodes (s : ℕ) (p : List ConnectionRow) : List ℕ := s :: p.map (·.to_id)

/-- The loop invariant of `find_path` under the zero heuristic, with a
`pend` parameter listing the out-edges of the most recently closed node
that its expansion loop has not relaxed yet (`pend = []` between
iterations).  `start_id`/`goal_id` are the search endpoints. -/
structure AInvP (db : SearchDB) (w : OptWeights) (scores : List (ℕ × ℚ))
    (start_id goal_id : ℕ) (pend : List ConnectionRow) (st : AState) : Prop where
  gW : ∀ v c, st.g_scores.lookup v = some c →
    ∃ p, ConnPath db start_id v p ∧ pathCost w scores p = c
  g0 : st.g_scores.lookup start_id = some 0
  clMin : ∀ u ∈ st.closed_set, ∃ c, st.g_scores.lookup u = some c ∧
    IsShortestCost db w scores start_id u c
  rx : ∀ u ∈ st.closed_set, ∀ e ∈ db.connections, e.from_id = u → e ∉ pend →
    ∃ cu cv, st.g_scores.lookup u = some cu ∧
      st.g_scores.lookup e.to_id = some cv ∧ cv ≤ cu + edgeCost w scores e
  opCover : ∀ v c, v ∉ st.closed_set → st.g_scores.lookup v = some c →
    ∃ n ∈ st.open_set, n.attraction_id = v ∧ n.g_cost = c
  opG : ∀ n ∈ st.open_set, ∃ c, st.g_scores.lookup n.attraction_id = some c ∧
    c ≤ n.g_cost
  opH : ∀ n ∈ st.open_set, n.h_cost = 0
  cf1 : ∀ v u, st.came_from.lookup v = some u →
    ∃ e ∈ db.connections, e.from_id = u ∧ e.to_id = v ∧
      ∃ cu cv, st.g_scores.lookup u = some cu ∧ st.g_scores.lookup v = some cv ∧
        cu + edgeCost w scores e ≤ cv
  cfRank : ∀ v u, st.came_from.lookup v = some u → u ∈ st.closed_set ∧
    st.closed_set.indexOf u < st.closed_set.indexOf v
  cfStart : st.came_from.lookup start_id = Option.none
  dom : ∀ v c, st.g_scores.lookup v = some c →
    v = start_id ∨ (st.came_from.lookup v).isSome
  clNodup : st.closed_set.Nodup
  goalNotClosed : goal_id ∉ st.closed_set

/-- The invariant between loop iterations (no pending relaxations). -/
def AInv (db : SearchDB) (w : OptWeights) (scores : List (ℕ × ℚ))
    (start_id goal_id : ℕ) (st : AState) : Prop :=
  AInvP db w scores start_id goal_id [] st

/-! ## Route optimizer service: multi-stop (`route_optimizer/service.py`) -/

/-- The summary block of a multi-stop result. -/
structure MultiSummary where
  total_attractions : ℕ
  total_distance_meters : ℚ
  total_distance_km : ℚ
  total_time_minutes : ℤ
  total_time_hours : ℚ
  total_cost : ℚ
  optimization_score : ℚ
  nodes_explored : ℕ
  deriving Repr, DecidableEq

/-- The result of `optimize_multi_stop`.  `visit_sequence` is the explicit
state passing of `current_location`: the chosen stops in visit order
(implicit in the source through `remaining_stops.remove`). -/
structure MultiStopResult where
  path_found : Bool
  attractions : List ℕ
  segments : List RouteSegment
  summary : MultiSummary
  waypoints_requested : ℕ
  waypoints_visited : ℕ
  visit_sequence : List ℕ
  deriving Repr, DecidableEq

/-- The running accumulators of the greedy tour loop. -/
structure GreedyAcc where
  attractions : List ℕ
  segments : List RouteSegment
  total_distance : ℚ
  total_time : ℤ
  total_cost : ℚ
  total_nodes : ℕ
  visit_sequence : List ℕ
  deriving Repr, DecidableEq

/-- The inner `for next_stop in remaining_stops` selection: run A* to each
remaining stop in order and keep the strictly cheapest found route by the
combined normalized cost; A* errors propagate like Python exceptions. -/
def chooseBest (db : SearchDB) (mode : String)
    (h : AttractionRow → AttractionRow → ℚ) (scores : List (ℕ × ℚ))
    (cur : ℕ) (stops : List ℕ) : Except String (Option (ℕ × OptimizedRoute × ℚ)) :=
  stops.foldlM
    (fun acc next_stop => do
      let (route, _) ← find_path db mode h scores cur next_stop 10000
      if route.path_found then
        let route_cost := route.total_distance / 10000 +
          (route.total_time : ℚ) / 120 + route.total_cost / 100
        match acc with
        | some (_, _, best_cost) =>
            if route_cost < best_cost then pure (some (next_stop, route, route_cost))
            else pure acc
        | Option.none => pure (some (next_stop, route, route_cost))
      else pure acc)
    Option.none

/-- Extend the accumulators with one chosen leg: append the leg's
attractions minus its first node, its segments, and its totals. -/
def extendAcc (acc : GreedyAcc) (route : OptimizedRoute) : GreedyAcc :=
  { attractions := acc.attractions ++ route.attractions.drop 1,
    segments := acc.segments ++ route.segments,
    total_distance := acc.total_distance + route.total_distance,
    total_time := acc.total_time + route.total_time,
    total_cost := acc.total_cost + route.total_cost,
    total_nodes := acc.total_nodes + route.nodes_explored,
    visit_sequence := acc.visit_sequence }

/-- The `while remaining_stops` loop of `optimize_multi_stop`: pick the
cheapest reachable stop, extend the tour, drop it from the remaining list;
break when no remaining stop is reachable.  Each iteration removes one
stop, so `remaining.length` is sufficient fuel. -/
def greedyLoop (db : SearchDB) (mode : String)
    (h : AttractionRow → AttractionRow → ℚ) (scores : List (ℕ × ℚ)) :
    ℕ → ℕ → List ℕ → GreedyAcc → Except String (ℕ × List ℕ × GreedyAcc)
  | 0, cur, remaining, acc => .ok (cur, remaining, acc)
  | fuel + 1, cur, remaining, acc =>
    if remaining.isEmpty then .ok (cur, remaining, acc)
    else do
      let best ← chooseBest db mode h scores cur remaining
      match best with
      | Option.none => .ok (cur, remaining, acc)
      | some (best_next, best_route, _) =>
          let acc' := { extendAcc acc best_route with
                        visit_sequence := acc.visit_sequence ++ [best_next] }
          greedyLoop db mode h scores fuel best_next (remaining.erase best_next) acc'

/-- `RouterOptimizerService.optimize_multi_stop`: 400 on an empty waypoint
list, 404 on a missing start, greedy tour over the waypoints, an optional
final leg to the end attraction (defaulting to the start), then the
summary.  The heuristic defaults to euclidean in the source (`AStar(db,
optimization_mode)`), supplied here as the parameter `h`. -/
def optimize_multi_stop (db : SearchDB) (mode : String)
    (h : AttractionRow → AttractionRow → ℚ) (scores : List (ℕ × ℚ))
    (start_id : ℕ) (waypoints : List ℕ) (end_attraction_id : Option ℕ) :
    Except HTTPError MultiStopResult :=
  if waypoints.isEmpty then
    .error ⟨400, "Debe proporcionar al menos una parada (waypoint)"⟩
  else
    match db.attractions.find? (fun a => a.id == start_id) with
    | Option.none => .error ⟨404, "Atraccion de inicio no encontrada"⟩
    | some _ =>
      let endId := end_attraction_id.getD start_id
      let run : Except String (List ℕ × GreedyAcc) := do
        let (cur, remaining, acc) ← greedyLoop db mode h scores
          waypoints.length start_id waypoints ⟨[start_id], [], 0, 0, 0, 0, []⟩
        if cur ≠ endId then do
          let (final_route, _) ← find_path db mode h scores cur endId 10000
          if final_route.path_found then pure (remaining, extendAcc acc final_route)
          else pure (remaining, acc)
        else pure (remaining, acc)
      match run with
      | .error e => .error ⟨500, e⟩
      | .ok (remaining, acc) =>
        .ok { path_found := ¬ acc.attractions.isEmpty,
              attractions := acc.attractions,
              segments := acc.segments,
              summary :=
                { total_attractions := acc.attractions.length,
                  total_distance_meters := round2 acc.total_distance,
                  total_distance_km := round2 (acc.total_distance / 1000),
                  total_time_minutes := acc.total_time,
                  total_time_hours := round2 ((acc.total_time : ℚ) / 60),
                  total_cost := round2 acc.total_cost,
                  optimization_score :=
                    round2 (max 0 (100 - min 100 (acc.total_distance / 10000 * 50))),
                  nodes_explored := acc.total_nodes },
              waypoints_requested := waypoints.length,
              waypoints_visited := waypoints.length - remaining.length,
              visit_sequence := acc.visit_sequence }

/-! ## Concrete fixtures used by counterexamples and witnesses -/

/-- C1 fixture: a 3-node chain `1 → 2 → 3`; node 2's category
(`naturaleza`) fails the category filter `["otro"]`, nodes 1 and 3 pass. -/
def bfsFilterDB : SearchDB :=
  ⟨[⟨1, "otro", Option.none, Option.none⟩,
    ⟨2, "naturaleza", Option.none, Option.none⟩,
    ⟨3, "otro", Option.none, Option.none⟩],
   [⟨1, 2, 100, 1, "walking", 0⟩, ⟨2, 3, 100, 1, "walking", 0⟩]⟩

/-- C1 fixture: default bounds with the category filter `["otro"]`. -/
def bfsFilterParams : BFSParams :=
  ⟨10000, 480, 50, 5, some ["otro"], Option.none, Option.none, Option.none⟩

/-- C1 fixture: default bounds, no filters. -/
def bfsNoFilterParams : BFSParams :=
  ⟨10000, 480, 50, 5, Option.none, Option.none, Option.none, Option.none⟩

/-- C5 fixture: a start with a 500 m walking edge to A (id 2) and a
25000 m car edge to B (id 3). -/
def bfsPruneDB : SearchDB :=
  ⟨[⟨1, "otro", Option.none, Option.none⟩,
    ⟨2, "otro", Option.none, Option.none⟩,
    ⟨3, "otro", Option.none, Option.none⟩],
   [⟨1, 2, 500, 5, "walking", 0⟩, ⟨1, 3, 25000, 30, "car", 0⟩]⟩

/-- C3 fixture: three attractions with zero-cost edges 1→2, 2→3 and
1→3, so several start-to-goal chains exist and all have minimal cost. -/
def c3db : SearchDB :=
  ⟨[⟨1, "museo", Option.none, Option.none⟩,
    ⟨2, "parque", Option.none, Option.none⟩,
    ⟨3, "playa", Option.none, Option.none⟩],
   [⟨1, 2, 0, 0, "walking", 0⟩, ⟨2, 3, 0, 0, "walking", 0⟩,
    ⟨1, 3, 0, 0, "car", 0⟩]⟩

/-- C3 fixture: the route returned on `c3db` (start 1, goal 3, mode
`distance`, zero heuristic, cap 4). -/
def c3route : OptimizedRoute :=
  ⟨true, [1, 3], [⟨1, 3, 0, 0, "car", 0⟩], 0, 0, 0, 3, "distance"⟩

/-- C3 fixture: the final search state of that run. -/
def c3fin : AState :=
  ⟨[], [1, 2], [(3, 1), (2, 1)], [(3, 0), (2, 0), (1, 0)], 3⟩

/-- C6 fixture: two attractions joined by zero-cost edges both ways, so
the start (1) and the single waypoint (2) are mutually reachable. -/
def c6db : SearchDB :=
  ⟨[⟨1, "museo", Option.none, Option.none⟩,
    ⟨2, "parque", Option.none, Option.none⟩],
   [⟨1, 2, 0, 0, "walking", 0⟩, ⟨2, 1, 0, 0, "walking", 0⟩]⟩

/-- C6 fixture: three attractions but edges only between 1 and 2, so a
tour from 1 over waypoints 2 and 3 visits 2 and then hits a mid-tour
dead end: 3 is unreachable from the then-current location 2. -/
def c6dbM : SearchDB :=
  ⟨[⟨1, "museo", Option.none, Option.none⟩,
    ⟨2, "parque", Option.none, Option.none⟩,
    ⟨3, "playa", Option.none, Option.none⟩],
   [⟨1, 2, 0, 0, "walking", 0⟩, ⟨2, 1, 0, 0, "walking", 0⟩]⟩

/-- C7 fixture: a candidate whose stored rating is exactly 0. -/
def candZeroRating : RankCandidate :=
  ⟨some 0, Option.none, some "gratis", [], Option.none⟩

/-- C7 fixture: a computed profile with no directives set. -/
def profEmpty : ComputedProfile :=
  ⟨Option.none, Option.none, Option.none, Option.none, Option.none, Option.none⟩

/-! # Theorems -/

/-- C9: the spec says any `ScoreCache` lookup more than 3600 s after the
entry's timestamp is a miss that evicts the entry, "regardless of how much
total time has elapsed".  The code computes
`(datetime.now() - timestamp).seconds`, the *seconds-of-day component*,
which wraps every 24 h, instead of `total_seconds()`.  Failing input: an
entry stored at t = 0 and looked up at t = 87000 s (24 h 10 min later) is
returned as a fresh hit with the cache left untouched, because the
component wraps to 600 < 3600.  The comparison `3600 < 87000` records that
the lookup is indeed far past the TTL. -/
theorem c9_scoreCache_ttl_wraps_daily :
    ScoreCache.get ⟨[(7, (9 : ℚ)/10, 0)], 10000, 3600⟩ 87000 7 =
      (some ((9 : ℚ)/10), ⟨[(7, (9 : ℚ)/10, 0)], 10000, 3600⟩) ∧
    3600 < 87000 - 0 := by
  constructor
  · rfl
  · decide

/-- C10: at the scoring service's read interface, every reported score is
`reportedScore` of the stored `nn_score` (for both `get_scores_dict` and
`get_top_scored_attractions`), and `reportedScore` maps `NULL` and the
exact value 0 to the neutral 0.5 while any nonzero stored score is
returned as itself — so a stored 0 is indistinguishable from a never
scored attraction. -/
theorem c10_zero_score_reported_neutral :
    (∀ (rows : List ScoredRow) (ids : List ℕ) (pr : ℕ × ℚ),
        pr ∈ get_scores_dict rows ids →
        ∃ r ∈ rows, r.id = pr.1 ∧ pr.2 = reportedScore r.nn_score) ∧
    (∀ (rows : List ScoredRow) (d l : ℕ) (cat : Option String)
        (pr : ScoredRow × ℚ), pr ∈ get_top_scored_attractions rows d l cat →
        pr.2 = reportedScore pr.1.nn_score) ∧
    reportedScore Option.none = 0.5 ∧ reportedScore (some 0) = 0.5 ∧
    (∀ v : ℚ, v ≠ 0 → reportedScore (some v) = v) := by
  refine ⟨?_, ?_, rfl, by norm_num [reportedScore], ?_⟩
  · intro rows ids pr hpr
    unfold get_scores_dict at hpr
    split at hpr
    · simp at hpr
    · obtain ⟨r, hr, rfl⟩ := List.mem_map.mp hpr
      exact ⟨r, (List.mem_filter.mp hr).1, rfl, rfl⟩
  · intro rows d l cat pr hpr
    unfold get_top_scored_attractions at hpr
    obtain ⟨r, _, rfl⟩ := List.mem_map.mp hpr
    rfl
  · intro v hv
    simp [reportedScore, hv]

/-- C10 witness: the theorem applied to a one-row table whose stored
`nn_score` is exactly 0; the reported score is the neutral 0.5. -/
theorem c10_zero_score_witness :
    ((⟨1, 1, "cultural", some 0⟩ : ScoredRow), (0.5 : ℚ)).2 =
      reportedScore ((⟨1, 1, "cultural", some 0⟩ : ScoredRow), (0.5 : ℚ)).1.nn_score :=
  c10_zero_score_reported_neutral.2.1 [⟨1, 1, "cultural", some 0⟩] 1 5 Option.none
    _ (by norm_num [get_top_scored_attractions, sortByNNDesc, insertRowDesc,
        reportedScore])

/-- C8 counterexample: the claim says the payload returned by
`get_weather_context_for_rules` on failure carries `is_default = true`.
It does not: the reshape in `get_weather_context_for_rules` copies only
five keys and drops the flag (which *is* present on the payload that
`get_current_weather` produces). -/
theorem c8_counterexample_no_is_default_flag :
    (((get_weather_context_for_rules (.error ())).lookup "weather").getD []).lookup
        "is_default" = Option.none ∧
    (get_weather_context_for_rules (.error ())).lookup "is_default" = Option.none ∧
    (get_current_weather (.error ())).lookup "is_default" = some (.b true) := by
  refine ⟨rfl, rfl, rfl⟩

/-- C8 (amended): when the weather call fails (including the unconfigured
provider, whose request is rejected), `get_weather_context_for_rules`
never raises — the entire fetch/parse block is inside `try`, so the
embedding is a total function — and returns exactly the default *values*
(sunny, 25 °C, 50 % humidity, outdoor-friendly, 10 km/h wind), but without
the `is_default` flag, which the reshape drops. -/
theorem c8_weather_default_amended :
    get_weather_context_for_rules (.error ()) =
      [("weather",
        [("condition", .s "sunny"), ("temperature", .q 25),
         ("is_outdoor_friendly", .b true), ("humidity", .q 50),
         ("wind_kmh", .q 10)])] := rfl

/-- C2 counterexample: registering an email that already has a `User` row
fails with HTTP status 400 (Bad Request), not 409 (Conflict) as the claim
states. -/
theorem c2_counterexample_status_400 :
    create_user (fun s => s) ⟨[⟨1, "ana@example.com", "h", "Ana", true⟩], 2⟩
        ⟨"ana@example.com", "secret", "Ana", true⟩ =
      .error ⟨400, "El email ya esta registrado."⟩ ∧ (400 : ℕ) ≠ 409 := by
  exact ⟨rfl, by decide⟩

/-- C2 (amended): `UserService.create_user` with an email that already has
a row fails with a 400 Bad Request error (not 409) and performs no insert
(no success value exists); with a fresh email it returns the created user,
whose stored password field is exactly the bcrypt hash
`get_password_hash(password)` — never the plaintext, as long as the hash
differs from its input — and appends exactly one row. -/
theorem c2_register_amended (hash : String → String) (db : UserDB)
    (u : UserCreate) :
    ((∃ u0 ∈ db.users, u0.email = u.email) →
      create_user hash db u = .error ⟨400, "El email ya esta registrado."⟩) ∧
    ((∀ u0 ∈ db.users, u0.email ≠ u.email) →
      ∃ row db', create_user hash db u = .ok (row, db') ∧
        row.email = u.email ∧ row.hashed_password = hash u.password ∧
        db'.users = db.users ++ [row] ∧
        (hash u.password ≠ u.password → row.hashed_password ≠ u.password)) := by
  constructor
  · rintro ⟨u0, hu0, hemail⟩
    unfold create_user
    have : db.users.find? (fun v => v.email == u.email) ≠ Option.none := by
      intro hnone
      rw [List.find?_eq_none] at hnone
      exact hnone u0 hu0 (by simp [hemail])
    obtain ⟨v, hv⟩ := Option.ne_none_iff_exists'.mp this
    rw [hv]
  · intro hfresh
    unfold create_user
    have hnone : db.users.find? (fun v => v.email == u.email) = Option.none := by
      rw [List.find?_eq_none]
      intro v hv
      simpa using hfresh v hv
    rw [hnone]
    refine ⟨_, _, rfl, rfl, rfl, rfl, fun hne => hne⟩

/-- C2 witness: the amended theorem applied at a concrete duplicate
registration. -/
theorem c2_register_witness :
    create_user (fun s => String.append "bcrypt$" s)
      ⟨[⟨1, "ana@example.com", "x", "Ana", true⟩], 2⟩
      ⟨"ana@example.com", "pw", "Ana", true⟩ =
      .error ⟨400, "El email ya esta registrado."⟩ :=
  (c2_register_amended _ _ _).1
    ⟨⟨1, "ana@example.com", "x", "Ana", true⟩, by simp, rfl⟩

/-- Queue-invariant preservation for one BFS step: any property of queue
nodes that is preserved by the enqueue rule — a new node built from an
in-bounds neighbor edge of a node satisfying the property — holds after a
step. -/
theorem bfsStep_queue_preserved (db : SearchDB) (p : BFSParams)
    (P : BFSNode → Prop)
    (hP : ∀ (cur : BFSNode) (c : ConnectionRow), P cur →
      c ∈ getNeighborsBFS db cur.attraction_id p.transport_mode →
      cur.distance_from_start + c.distance_meters ≤ p.max_radius_meters →
      cur.time_from_start + c.travel_time_minutes ≤ p.max_time_minutes →
      P ⟨c.to_id, cur.depth + 1, cur.distance_from_start + c.distance_meters,
         cur.time_from_start + c.travel_time_minutes, some cur.attraction_id⟩)
    (s : BFSState) (hs : ∀ n ∈ s.queue, P n) :
    ∀ n ∈ (bfsStep db p s).queue, P n := by
  intro n hn
  obtain ⟨q, vis, cand, expc, lvl, gs⟩ := s
  rcases q with _ | ⟨cur, rest⟩
  · simp [bfsStep, bfsDone] at hn
  have hcur : P cur := hs cur (List.mem_cons_self _ _)
  have hrest : ∀ m ∈ rest, P m := fun m hm => hs m (List.mem_cons_of_mem _ hm)
  simp only [bfsStep] at hn
  split at hn
  · exact hs n hn
  split at hn
  · exact hrest n hn
  split at hn
  · exact hrest n hn
  split at hn
  · exact hrest n hn
  split at hn
  · exact hrest n hn
  rcases List.mem_append.mp hn with h | h
  · exact hrest n h
  · obtain ⟨c, hc, hfc⟩ := List.mem_filterMap.mp h
    by_cases hvis : c.to_id ∈ vis ++ [cur.attraction_id]
    · simp only [if_pos hvis] at hfc
      exact absurd hfc (by simp)
    simp only [if_neg hvis] at hfc
    by_cases hr : p.max_radius_meters < cur.distance_from_start + c.distance_meters
    · simp only [if_pos hr] at hfc
      exact absurd hfc (by simp)
    simp only [if_neg hr] at hfc
    by_cases ht : p.max_time_minutes < cur.time_from_start + c.travel_time_minutes
    · simp only [if_pos ht] at hfc
      exact absurd hfc (by simp)
    simp only [if_neg ht] at hfc
    cases Option.some.inj hfc
    exact hP cur c hcur hc (not_lt.mp hr) (not_lt.mp ht)

/-- Iterated form of `bfsStep_queue_preserved`. -/
theorem bfsIterate_queue_preserved (db : SearchDB) (p : BFSParams)
    (P : BFSNode → Prop)
    (hP : ∀ (cur : BFSNode) (c : ConnectionRow), P cur →
      c ∈ getNeighborsBFS db cur.attraction_id p.transport_mode →
      cur.distance_from_start + c.distance_meters ≤ p.max_radius_meters →
      cur.time_from_start + c.travel_time_minutes ≤ p.max_time_minutes →
      P ⟨c.to_id, cur.depth + 1, cur.distance_from_start + c.distance_meters,
         cur.time_from_start + c.travel_time_minutes, some cur.attraction_id⟩) :
    ∀ (k : ℕ) (s : BFSState), (∀ n ∈ s.queue, P n) →
      ∀ n ∈ ((bfsStep db p)^[k] s).queue, P n := by
  intro k
  induction k with
  | zero => intro s hs; simpa using hs
  | succ k ih =>
      intro s hs
      rw [Function.iterate_succ_apply]
      exact ih _ (bfsStep_queue_preserved db p P hP s hs)

/-- The complete run of `explore`'s loop on the C5 fixture: the start is
popped and only A (id 2, 500 m) is enqueued — B (id 3) is pruned by the
radius guard — then A is popped and becomes a candidate. -/
theorem bfsPrune_run :
    (bfsStep bfsPruneDB bfsNoFilterParams)^[4] (bfsInit 1) =
      ⟨[], [1, 2], [⟨⟨2, "otro", Option.none, Option.none⟩, 1, 500, 5, some 1⟩],
       2, 1, [(1, [2, 3]), (2, [])]⟩ := by
  have h1 : bfsStep bfsPruneDB bfsNoFilterParams (bfsInit 1) =
      ⟨[⟨2, 1, 500, 5, some 1⟩], [1], [], 1, 0, [(1, [2, 3])]⟩ := by
    norm_num [bfsStep, bfsDone, bfsInit, getNeighborsBFS, meetsCriteria,
      bfsPruneDB, bfsNoFilterParams, List.filter_cons, List.filterMap_cons]
  have h2 : bfsStep bfsPruneDB bfsNoFilterParams
      ⟨[⟨2, 1, 500, 5, some 1⟩], [1], [], 1, 0, [(1, [2, 3])]⟩ =
      ⟨[], [1, 2], [⟨⟨2, "otro", Option.none, Option.none⟩, 1, 500, 5, some 1⟩],
       2, 1, [(1, [2, 3]), (2, [])]⟩ := by
    norm_num [bfsStep, bfsDone, getNeighborsBFS, meetsCriteria, bfsPruneDB,
      bfsNoFilterParams, List.filter_cons, List.filterMap_cons, round2, round_eq]
  have h3 : bfsStep bfsPruneDB bfsNoFilterParams
      ⟨[], [1, 2], [⟨⟨2, "otro", Option.none, Option.none⟩, 1, 500, 5, some 1⟩],
       2, 1, [(1, [2, 3]), (2, [])]⟩ =
      ⟨[], [1, 2], [⟨⟨2, "otro", Option.none, Option.none⟩, 1, 500, 5, some 1⟩],
       2, 1, [(1, [2, 3]), (2, [])]⟩ := by
    norm_num [bfsStep, bfsDone]
  calc (bfsStep bfsPruneDB bfsNoFilterParams)^[4] (bfsInit 1)
      = (bfsStep bfsPruneDB bfsNoFilterParams)^[3]
          (bfsStep bfsPruneDB bfsNoFilterParams (bfsInit 1)) :=
        Function.iterate_succ_apply _ 3 _
    _ = (bfsStep bfsPruneDB bfsNoFilterParams)^[2]
          (bfsStep bfsPruneDB bfsNoFilterParams
            ⟨[⟨2, 1, 500, 5, some 1⟩], [1], [], 1, 0, [(1, [2, 3])]⟩) := by
        rw [h1]; exact Function.iterate_succ_apply _ 2 _
    _ = (bfsStep bfsPruneDB bfsNoFilterParams)^[2]
          ⟨[], [1, 2], [⟨⟨2, "otro", Option.none, Option.none⟩, 1, 500, 5, some 1⟩],
           2, 1, [(1, [2, 3]), (2, [])]⟩ := by rw [h2]
    _ = _ := Function.iterate_fixed h3 2

/-- C5: radius/time pruning happens before enqueueing.  (i) In any
exploration with nonnegative bounds, every node ever placed on the queue
satisfies the radius and time bounds — a neighbor whose edge would exceed
either bound is never enqueued; (ii) on the fixture with a 500 m edge to A
(id 2) and a 25000 m edge to B (id 3) and `max_radius_meters = 10000`, A
ends up a candidate; (iii) on that fixture B is never placed on the queue
at any point of the run. -/
theorem c5_bfs_prunes_out_of_bounds_neighbors :
    (∀ (db : SearchDB) (p : BFSParams) (start k : ℕ),
      0 ≤ p.max_radius_meters → 0 ≤ p.max_time_minutes →
      ∀ n ∈ ((bfsStep db p)^[k] (bfsInit start)).queue,
        n.distance_from_start ≤ p.max_radius_meters ∧
        n.time_from_start ≤ p.max_time_minutes) ∧
    ((bfsStep bfsPruneDB bfsNoFilterParams)^[4] (bfsInit 1)).candidates.map
        (fun c => c.attraction.id) = [2] ∧
    (∀ (k : ℕ) (n : BFSNode),
      n ∈ ((bfsStep bfsPruneDB bfsNoFilterParams)^[k] (bfsInit 1)).queue →
      n.attraction_id ≠ 3) := by
  refine ⟨?_, by rw [bfsPrune_run]; rfl, ?_⟩
  · intro db p start k h0 h1
    refine bfsIterate_queue_preserved db p _ ?_ k _ ?_
    · intro cur c _ _ hr ht
      exact ⟨hr, ht⟩
    · intro n hn
      simp only [bfsInit, List.mem_singleton] at hn
      subst hn
      exact ⟨h0, h1⟩
  · intro k n hn
    have main := bfsIterate_queue_preserved bfsPruneDB bfsNoFilterParams
      (fun m => m.attraction_id ≠ 3 ∧ 0 ≤ m.distance_from_start) ?_ k _ ?_ n hn
    · exact main.1
    · intro cur c hcur hc hr _
      have hcdb : c ∈ bfsPruneDB.connections :=
        List.mem_of_mem_filter hc
      have hcases : c = ⟨1, 2, 500, 5, "walking", 0⟩ ∨
          c = ⟨1, 3, 25000, 30, "car", 0⟩ := by
        simpa [bfsPruneDB] using hcdb
      rcases hcases with rfl | rfl
      · constructor
        · show (2 : ℕ) ≠ 3
          decide
        · show (0 : ℚ) ≤ cur.distance_from_start + 500
          linarith [hcur.2]
      · exfalso
        have hd0 := hcur.2
        have hr' : cur.distance_from_start + (25000 : ℚ) ≤ 10000 := by
          simpa [bfsNoFilterParams] using hr
        linarith
    · intro n hn
      simp only [bfsInit, List.mem_singleton] at hn
      subst hn
      exact ⟨by decide, le_refl 0⟩

/-- C5 witness: the pruning theorem applied at the fixture after one step,
where the single queued node (A at 500 m, 5 min) is within both bounds. -/
theorem c5_bfs_pruning_witness :
    (⟨2, 1, 500, 5, some 1⟩ : BFSNode).distance_from_start ≤
        bfsNoFilterParams.max_radius_meters ∧
    (⟨2, 1, 500, 5, some 1⟩ : BFSNode).time_from_start ≤
        bfsNoFilterParams.max_time_minutes := by
  refine c5_bfs_prunes_out_of_bounds_neighbors.1 bfsPruneDB bfsNoFilterParams 1 1
    (by norm_num [bfsNoFilterParams]) (by norm_num [bfsNoFilterParams])
    _ ?_
  have h1 : bfsStep bfsPruneDB bfsNoFilterParams (bfsInit 1) =
      ⟨[⟨2, 1, 500, 5, some 1⟩], [1], [], 1, 0, [(1, [2, 3])]⟩ := by
    norm_num [bfsStep, bfsDone, bfsInit, getNeighborsBFS, meetsCriteria,
      bfsPruneDB, bfsNoFilterParams, List.filter_cons, List.filterMap_cons]
  rw [Function.iterate_one, h1]
  exact List.mem_singleton.mpr rfl

/-- The run on the C1 fixture *with* the category filter: node 2 fails the
filter when popped, so node 3 is never discovered. -/
theorem bfsFilter_run :
    (bfsStep bfsFilterDB bfsFilterParams)^[5] (bfsInit 1) =
      ⟨[], [1, 2], [], 2, 1, [(1, [2])]⟩ := by
  have h1 : bfsStep bfsFilterDB bfsFilterParams (bfsInit 1) =
      ⟨[⟨2, 1, 100, 1, some 1⟩], [1], [], 1, 0, [(1, [2])]⟩ := by
    norm_num [bfsStep, bfsDone, bfsInit, getNeighborsBFS, meetsCriteria,
      bfsFilterDB, bfsFilterParams, List.filter_cons, List.filterMap_cons]
    all_goals decide
  have h2 : bfsStep bfsFilterDB bfsFilterParams
      ⟨[⟨2, 1, 100, 1, some 1⟩], [1], [], 1, 0, [(1, [2])]⟩ =
      ⟨[], [1, 2], [], 2, 1, [(1, [2])]⟩ := by
    norm_num [bfsStep, bfsDone, getNeighborsBFS, meetsCriteria, bfsFilterDB,
      bfsFilterParams, List.filter_cons, List.filterMap_cons]
    all_goals decide
  have h3 : bfsStep bfsFilterDB bfsFilterParams ⟨[], [1, 2], [], 2, 1, [(1, [2])]⟩ =
      ⟨[], [1, 2], [], 2, 1, [(1, [2])]⟩ := by
    norm_num [bfsStep, bfsDone]
  calc (bfsStep bfsFilterDB bfsFilterParams)^[5] (bfsInit 1)
      = (bfsStep bfsFilterDB bfsFilterParams)^[4]
          (bfsStep bfsFilterDB bfsFilterParams (bfsInit 1)) :=
        Function.iterate_succ_apply _ 4 _
    _ = (bfsStep bfsFilterDB bfsFilterParams)^[3]
          (bfsStep bfsFilterDB bfsFilterParams
            ⟨[⟨2, 1, 100, 1, some 1⟩], [1], [], 1, 0, [(1, [2])]⟩) := by
        rw [h1]; exact Function.iterate_succ_apply _ 3 _
    _ = (bfsStep bfsFilterDB bfsFilterParams)^[3]
          ⟨[], [1, 2], [], 2, 1, [(1, [2])]⟩ := by rw [h2]
    _ = _ := Function.iterate_fixed h3 3

/-- The run on the C1 fixture *without* filters: all three nodes are
popped and explored, and nodes 2 and 3 become candidates. -/
theorem bfsNoFilter_run :
    (bfsStep bfsFilterDB bfsNoFilterParams)^[5] (bfsInit 1) =
      ⟨[], [1, 2, 3],
       [⟨⟨2, "naturaleza", Option.none, Option.none⟩, 1, 100, 1, some 1⟩,
        ⟨⟨3, "otro", Option.none, Option.none⟩, 2, 200, 2, some 2⟩],
       3, 2, [(1, [2]), (2, [3]), (3, [])]⟩ := by
  have h1 : bfsStep bfsFilterDB bfsNoFilterParams (bfsInit 1) =
      ⟨[⟨2, 1, 100, 1, some 1⟩], [1], [], 1, 0, [(1, [2])]⟩ := by
    norm_num [bfsStep, bfsDone, bfsInit, getNeighborsBFS, meetsCriteria,
      bfsFilterDB, bfsNoFilterParams, List.filter_cons, List.filterMap_cons]
  have h2 : bfsStep bfsFilterDB bfsNoFilterParams
      ⟨[⟨2, 1, 100, 1, some 1⟩], [1], [], 1, 0, [(1, [2])]⟩ =
      ⟨[⟨3, 2, 200, 2, some 2⟩], [1, 2],
       [⟨⟨2, "naturaleza", Option.none, Option.none⟩, 1, 100, 1, some 1⟩],
       2, 1, [(1, [2]), (2, [3])]⟩ := by
    norm_num [bfsStep, bfsDone, getNeighborsBFS, meetsCriteria, bfsFilterDB,
      bfsNoFilterParams, List.filter_cons, List.filterMap_cons, round2, round_eq]
  have h3 : bfsStep bfsFilterDB bfsNoFilterParams
      ⟨[⟨3, 2, 200, 2, some 2⟩], [1, 2],
       [⟨⟨2, "naturaleza", Option.none, Option.none⟩, 1, 100, 1, some 1⟩],
       2, 1, [(1, [2]), (2, [3])]⟩ =
      ⟨[], [1, 2, 3],
       [⟨⟨2, "naturaleza", Option.none, Option.none⟩, 1, 100, 1, some 1⟩,
        ⟨⟨3, "otro", Option.none, Option.none⟩, 2, 200, 2, some 2⟩],
       3, 2, [(1, [2]), (2, [3]), (3, [])]⟩ := by
    norm_num [bfsStep, bfsDone, getNeighborsBFS, meetsCriteria, bfsFilterDB,
      bfsNoFilterParams, List.filter_cons, List.filterMap_cons, round2, round_eq]
  have h4 : bfsStep bfsFilterDB bfsNoFilterParams
      ⟨[], [1, 2, 3],
       [⟨⟨2, "naturaleza", Option.none, Option.none⟩, 1, 100, 1, some 1⟩,
        ⟨⟨3, "otro", Option.none, Option.none⟩, 2, 200, 2, some 2⟩],
       3, 2, [(1, [2]), (2, [3]), (3, [])]⟩ =
      ⟨[], [1, 2, 3],
       [⟨⟨2, "naturaleza", Option.none, Option.none⟩, 1, 100, 1, some 1⟩,
        ⟨⟨3, "otro", Option.none, Option.none⟩, 2, 200, 2, some 2⟩],
       3, 2, [(1, [2]), (2, [3]), (3, [])]⟩ := by
    norm_num [bfsStep, bfsDone]
  calc (bfsStep bfsFilterDB bfsNoFilterParams)^[5] (bfsInit 1)
      = (bfsStep bfsFilterDB bfsNoFilterParams)^[4]
          (bfsStep bfsFilterDB bfsNoFilterParams (bfsInit 1)) :=
        Function.iterate_succ_apply _ 4 _
    _ = (bfsStep bfsFilterDB bfsNoFilterParams)^[3]
          (bfsStep bfsFilterDB bfsNoFilterParams
            ⟨[⟨2, 1, 100, 1, some 1⟩], [1], [], 1, 0, [(1, [2])]⟩) := by
        rw [h1]; exact Function.iterate_succ_apply _ 3 _
    _ = (bfsStep bfsFilterDB bfsNoFilterParams)^[2]
          (bfsStep bfsFilterDB bfsNoFilterParams
            ⟨[⟨3, 2, 200, 2, some 2⟩], [1, 2],
             [⟨⟨2, "naturaleza", Option.none, Option.none⟩, 1, 100, 1, some 1⟩],
             2, 1, [(1, [2]), (2, [3])]⟩) := by
        rw [h2]; exact Function.iterate_succ_apply _ 2 _
    _ = (bfsStep bfsFilterDB bfsNoFilterParams)^[2]
          ⟨[], [1, 2, 3],
           [⟨⟨2, "naturaleza", Option.none, Option.none⟩, 1, 100, 1, some 1⟩,
            ⟨⟨3, "otro", Option.none, Option.none⟩, 2, 200, 2, some 2⟩],
           3, 2, [(1, [2]), (2, [3]), (3, [])]⟩ := by rw [h3]
    _ = _ := Function.iterate_fixed h4 2

/-- C1 counterexample: the claim says catalog filters never affect graph
closure.  On the chain `1 → 2 → 3` where only node 2 fails the category
filter, the filtered run explores 2 nodes and never reaches node 3, while
the unfiltered run with identical bounds explores all 3 — so a node
failing the filters does *not* get its neighbors enqueued, and the
reachable set depends on the filters. -/
theorem c1_counterexample_filter_blocks_closure :
    ((bfsStep bfsFilterDB bfsFilterParams)^[5] (bfsInit 1)).explored_count = 2 ∧
    ((bfsStep bfsFilterDB bfsFilterParams)^[5] (bfsInit 1)).visited = [1, 2] ∧
    ((bfsStep bfsFilterDB bfsFilterParams)^[5] (bfsInit 1)).candidates = [] ∧
    ((bfsStep bfsFilterDB bfsNoFilterParams)^[5] (bfsInit 1)).explored_count = 3 ∧
    ((bfsStep bfsFilterDB bfsNoFilterParams)^[5] (bfsInit 1)).visited = [1, 2, 3] := by
  rw [bfsFilter_run, bfsNoFilter_run]
  exact ⟨rfl, rfl, rfl, rfl, rfl⟩

/-- C1 (amended): when a popped node passes the visited and depth checks
but fails the catalog filters, it is marked visited and counted as
explored, yet it contributes no candidate *and its neighbors are not
enqueued*: the step leaves the candidate list, graph structure and queue
tail untouched.  Filtering prunes graph closure, contrary to the original
claim. -/
theorem c1_filtered_node_not_expanded (db : SearchDB) (p : BFSParams)
    (cur : BFSNode) (rest : List BFSNode) (vis : List ℕ)
    (cand : List BFSCandidate) (expc lvl : ℕ) (gs : List (ℕ × List ℕ))
    (attr : AttractionRow)
    (hdone : bfsDone p ⟨cur :: rest, vis, cand, expc, lvl, gs⟩ = false)
    (hv : cur.attraction_id ∉ vis) (hd : cur.depth ≤ p.max_depth)
    (ha : db.attractions.find? (fun a => a.id == cur.attraction_id) = some attr)
    (hm : meetsCriteria attr p.category_filter p.min_rating p.price_range_filter
      = false) :
    bfsStep db p ⟨cur :: rest, vis, cand, expc, lvl, gs⟩ =
      ⟨rest, vis ++ [cur.attraction_id], cand, expc + 1, max lvl cur.depth, gs⟩ := by
  have hd' : ¬ (p.max_depth < cur.depth) := not_lt.mpr hd
  simp [bfsStep, hdone, hv, hd', ha, hm]

/-- C1 witness: the amended theorem applied at the fixture state reached
after one step, where node 2 (category `naturaleza`) fails the `["otro"]`
filter: it is visited and counted but nothing is enqueued. -/
theorem c1_filtered_node_witness :
    bfsStep bfsFilterDB bfsFilterParams
      ⟨[⟨2, 1, 100, 1, some 1⟩], [1], [], 1, 0, [(1, [2])]⟩ =
      ⟨[], [1, 2], [], 2, 1, [(1, [2])]⟩ := by
  have h := c1_filtered_node_not_expanded bfsFilterDB bfsFilterParams
    ⟨2, 1, 100, 1, some 1⟩ [] [1] [] 1 0 [(1, [2])]
    ⟨2, "naturaleza", Option.none, Option.none⟩
    (by norm_num [bfsDone, bfsFilterParams])
    (by norm_num) (by norm_num [bfsFilterParams])
    (by norm_num [bfsFilterDB]) (by decide)
  simpa using h

/-- Bounds for the log-normalized features: for `1 < M` and `v + 1 ≤ M`,
`log(max v 0 + 1) / log M` lies in `[0, 1]`. -/
theorem logNorm_bounds (v M : ℝ) (hM : 1 < M) (hv : v + 1 ≤ M) :
    0 ≤ Real.log (max v 0 + 1) / Real.log M ∧
    Real.log (max v 0 + 1) / Real.log M ≤ 1 := by
  have hM0 : 0 < Real.log M := Real.log_pos hM
  have h1 : (1 : ℝ) ≤ max v 0 + 1 := by
    have := le_max_right v 0
    linarith
  have hle : max v 0 + 1 ≤ M := by
    rcases max_cases v 0 with ⟨he, _⟩ | ⟨he, _⟩ <;> rw [he] <;> linarith
  constructor
  · exact div_nonneg (Real.log_nonneg h1) hM0.le
  · rw [div_le_one hM0]
    exact Real.log_le_log (by linarith) hle

/-- C4 counterexample: the claim includes "review counts above 10,000"
among the pathological inputs every entry survives, but entry 1
(`log(total_reviews + 1) / log(10001)`) has no upper cap: with
`total_reviews = 20000` it exceeds 1. -/
theorem c4_counterexample_uncapped_log :
    1 < (normalize_features
      { nnFeaturesEmpty with total_reviews := some 20000 }).getD 1 0 := by
  simp only [normalize_features, nnFeaturesEmpty, Option.getD_some, Option.getD_none,
    List.getD_cons_succ, List.getD_cons_zero]
  have hmax : max (20000 : ℝ) 0 = 20000 := by norm_num
  rw [hmax]
  unfold MAX_REVIEWS_LOG
  rw [lt_div_iff₀ (Real.log_pos (by norm_num)), one_mul]
  exact Real.log_lt_log (by norm_num) (by norm_num)

/-- C4 (amended): every one of the 13 entries of
`normalize_features` lies in `[0, 1]` *provided* the inputs respect their
catalog domains: nonnegative ratings and sentiment percentage, sentiment
score in `[-1, 1]`, review counts at most 10,000 and check-ins at most
100,000.  (Zero reviews, absent keys and negative-but-in-range sentiment
are all fine; counts above the caps or out-of-range values are not, as the
counterexample shows.) -/
theorem c4_normalize_features_bounds (f : NNFeatures)
    (h0 : 0 ≤ f.rating.getD 0)
    (h1 : f.total_reviews.getD 0 ≤ 10000)
    (h2 : 0 ≤ f.google_rating.getD 0)
    (h3 : f.google_reviews.getD 0 ≤ 10000)
    (h4 : 0 ≤ f.foursquare_rating.getD 0)
    (h6 : f.foursquare_checkins.getD 0 ≤ 100000)
    (h7a : -1 ≤ f.sentiment_score.getD 0) (h7b : f.sentiment_score.getD 0 ≤ 1)
    (h8 : 0 ≤ f.sentiment_positive_pct.getD 50) :
    ∀ x ∈ normalize_features f, 0 ≤ x ∧ x ≤ 1 := by
  intro x hx
  have hrl := logNorm_bounds (f.total_reviews.getD 0) 10001 (by norm_num) (by linarith)
  have hgl := logNorm_bounds (f.google_reviews.getD 0) 10001 (by norm_num) (by linarith)
  have hcl := logNorm_bounds (f.foursquare_checkins.getD 0) 100001 (by norm_num)
    (by linarith)
  simp only [normalize_features, MAX_REVIEWS_LOG, MAX_CHECKINS_LOG,
    List.mem_cons, List.not_mem_nil, or_false] at hx
  rcases hx with rfl | rfl | rfl | rfl | rfl | rfl | rfl | rfl | rfl | rfl | rfl | rfl | rfl
  · exact ⟨le_min (by positivity) zero_le_one, min_le_right _ _⟩
  · exact hrl
  · exact ⟨le_min (by positivity) zero_le_one, min_le_right _ _⟩
  · exact hgl
  · exact ⟨le_min (by positivity) zero_le_one, min_le_right _ _⟩
  · exact ⟨le_min (le_max_right _ _) zero_le_one, min_le_right _ _⟩
  · exact hcl
  · constructor <;> linarith
  · exact ⟨le_min (by positivity) zero_le_one, min_le_right _ _⟩
  · exact ⟨le_min (le_max_right _ _) zero_le_one, min_le_right _ _⟩
  · split_ifs <;> norm_num
  · split_ifs <;> norm_num
  · exact ⟨le_min (le_max_right _ _) zero_le_one, min_le_right _ _⟩

/-- C4 witness: the bounds theorem applied to the empty feature dictionary
(every key absent), extracted at entry 0 (`min(0/5, 1)`). -/
theorem c4_normalize_features_witness :
    0 ≤ min ((0 : ℝ) / 5) 1 ∧ min ((0 : ℝ) / 5) 1 ≤ 1 :=
  c4_normalize_features_bounds nnFeaturesEmpty
    (by norm_num [nnFeaturesEmpty]) (by norm_num [nnFeaturesEmpty])
    (by norm_num [nnFeaturesEmpty]) (by norm_num [nnFeaturesEmpty])
    (by norm_num [nnFeaturesEmpty]) (by norm_num [nnFeaturesEmpty])
    (by norm_num [nnFeaturesEmpty]) (by norm_num [nnFeaturesEmpty])
    (by norm_num [nnFeaturesEmpty]) _
    (by simp [normalize_features, nnFeaturesEmpty])

/-- The loop-body score equals the claim's formula with the amended
(falsy-aware) rating default. -/
theorem rankScore_eq_claimScore (profile : ComputedProfile) (c : RankCandidate) :
    rankScore profile c = claimScore profile c := by
  simp only [rankScore, claimScore]
  split_ifs <;> (congr 1; ring)

/-- `insertDesc` inserts: the result is a permutation of consing. -/
theorem insertDesc_perm (x : ScoredCandidate) (l : List ScoredCandidate) :
    List.Perm (insertDesc x l) (x :: l) := by
  induction l with
  | nil => rfl
  | cons y ys ih =>
      rw [insertDesc]
      split_ifs
      · rfl
      · exact (List.Perm.cons y ih).trans (List.Perm.swap x y ys)

/-- `sortDesc` permutes its input. -/
theorem sortDesc_perm (l : List ScoredCandidate) : List.Perm (sortDesc l) l := by
  induction l with
  | nil => rfl
  | cons x xs ih =>
      rw [sortDesc]
      exact (insertDesc_perm x (sortDesc xs)).trans (List.Perm.cons x ih)

/-- `insertDesc` preserves descending sortedness. -/
theorem insertDesc_sorted (x : ScoredCandidate) (l : List ScoredCandidate)
    (h : l.Sorted (fun a b => b.score ≤ a.score)) :
    (insertDesc x l).Sorted (fun a b => b.score ≤ a.score) := by
  induction l with
  | nil => simp [insertDesc]
  | cons y ys ih =>
      rw [insertDesc]
      rw [List.sorted_cons] at h
      split_ifs with hxy
      · rw [List.sorted_cons]
        refine ⟨?_, List.sorted_cons.mpr h⟩
        intro b hb
        rcases List.mem_cons.mp hb with rfl | hb
        · exact hxy
        · exact (h.1 b hb).trans hxy
      · rw [List.sorted_cons]
        refine ⟨?_, ih h.2⟩
        intro b hb
        rcases List.mem_cons.mp ((insertDesc_perm x ys).mem_iff.mp hb) with rfl | hb
        · exact (not_le.mp hxy).le
        · exact h.1 b hb

/-- `sortDesc` sorts descending. -/
theorem sortDesc_sorted (l : List ScoredCandidate) :
    (sortDesc l).Sorted (fun a b => b.score ≤ a.score) := by
  induction l with
  | nil => simp [sortDesc]
  | cons x xs ih => exact insertDesc_sorted x (sortDesc xs) ih

/-- C7 (amended): `_rank_candidates` assigns exactly the claimed score to
every candidate — with the one amendment that the 3.0 rating default also
applies to a stored rating of 0 (Python `or` falsiness), not only to an
absent rating — and returns the scored candidates sorted by score
descending, keeping exactly those scoring strictly above −50. -/
theorem c7_rank_candidates_formula (profile : ComputedProfile)
    (cs : List RankCandidate) :
    rank_candidates profile cs =
      (sortDesc (cs.map (fun c => ⟨c, claimScore profile c⟩))).filter
        (fun x => -50 < x.score) ∧
    (rank_candidates profile cs).Sorted (fun a b => b.score ≤ a.score) ∧
    (rank_candidates profile cs).Perm
      ((cs.map (fun c => ⟨c, claimScore profile c⟩)).filter
        (fun x => -50 < x.score)) := by
  have hmap : cs.map (fun c => (⟨c, rankScore profile c⟩ : ScoredCandidate)) =
      cs.map (fun c => ⟨c, claimScore profile c⟩) :=
    List.map_congr_left fun c _ => by rw [rankScore_eq_claimScore]
  refine ⟨by rw [rank_candidates, hmap], ?_, ?_⟩
  · rw [rank_candidates]
    exact List.Pairwise.sublist (List.filter_sublist _) (sortDesc_sorted _)
  · rw [rank_candidates, hmap]
    exact (sortDesc_perm _).filter _

/-- C7 counterexample: a candidate whose *stored* rating is exactly 0 is
scored 30 by the code (`attr.get('rating') or 3.0` treats 0 as absent),
while the claim's formula — 3.0 default only when the rating is absent —
yields 0. -/
theorem c7_counterexample_zero_rating :
    rank_candidates profEmpty [candZeroRating] =
      [⟨candZeroRating, 30⟩] ∧
    claimScoreLiteral profEmpty candZeroRating = 0 ∧ (30 : ℚ) ≠ 0 := by
  refine ⟨?_, ?_, by norm_num⟩
  · have hg : strLower "gratis" = "gratis" := by decide
    norm_num [rank_candidates, rankScore, sortDesc, insertDesc, profEmpty,
      candZeroRating, round2, round_eq, hg]
  · have hg : strLower "gratis" = "gratis" := by decide
    norm_num [claimScoreLiteral, profEmpty, candZeroRating, round2, round_eq, hg]

/-! ### Helper lemmas for the Dijkstra-equivalence proof -/

/-- Every edge of a connection chain is a stored connection. -/
theorem connPath_mem {db : SearchDB} {a b : ℕ} {p : List ConnectionRow}
    (h : ConnPath db a b p) : ∀ c ∈ p, c ∈ db.connections := by
  induction h with
  | nil => simp
  | cons hc _ _ ih =>
      intro c hc'
      rcases List.mem_cons.mp hc' with rfl | h'
      · exact hc
      · exact ih c h'

theorem pathCost_cons (w : OptWeights) (scores : List (ℕ × ℚ))
    (c : ConnectionRow) (p : List ConnectionRow) :
    pathCost w scores (c :: p) = edgeCost w scores c + pathCost w scores p := by
  simp [pathCost]

theorem pathCost_append (w : OptWeights) (scores : List (ℕ × ℚ))
    (p q : List ConnectionRow) :
    pathCost w scores (p ++ q) = pathCost w scores p + pathCost w scores q := by
  simp [pathCost]

/-- With nonnegative edge costs, chain costs are nonnegative. -/
theorem pathCost_nonneg {db : SearchDB} {w : OptWeights} {scores : List (ℕ × ℚ)}
    (hwc : ∀ c ∈ db.connections, 0 ≤ edgeCost w scores c)
    {a b : ℕ} {p : List ConnectionRow} (h : ConnPath db a b p) :
    0 ≤ pathCost w scores p := by
  induction h with
  | nil => simp [pathCost]
  | cons hc _ _ ih =>
      rw [pathCost_cons]
      have := hwc _ hc
      linarith

/-- Extend a chain by one stored edge at its end. -/
theorem connPath_append_edge {db : SearchDB} {a b : ℕ} {p : List ConnectionRow}
    (h : ConnPath db a b p) {e : ConnectionRow} (he : e ∈ db.connections)
    (hf : e.from_id = b) : ConnPath db a e.to_id (p ++ [e]) := by
  induction h with
  | nil => exact ConnPath.cons he hf (ConnPath.nil _)
  | cons hc hfr _ ih => exact ConnPath.cons hc hfr (ih hf)

/-- `popMin` returns `none` exactly on the empty list. -/
theorem popMin_eq_none {l : List AStarNode} : popMin l = Option.none ↔ l = [] := by
  cases l with
  | nil => simp [popMin]
  | cons n rest =>
      simp only [popMin]
      constructor
      · intro h
        rcases hr : popMin rest with _ | pr
        · rw [hr] at h; cases h
        · rw [hr] at h
          dsimp at h
          split at h <;> cases h
      · intro h; cases h

/-- The popped node plus the remainder permute the open list. -/
theorem popMin_perm {l : List AStarNode} {n : AStarNode} {rest : List AStarNode}
    (h : popMin l = some (n, rest)) : List.Perm l (n :: rest) := by
  induction l generalizing n rest with
  | nil => cases h
  | cons x xs ih =>
      rw [popMin] at h
      rcases hr : popMin xs with _ | ⟨m, rest'⟩
      · rw [hr] at h
        have hx : xs = [] := popMin_eq_none.mp hr
        subst hx
        cases h
        rfl
      · rw [hr] at h
        dsimp at h
        split at h
        · cases h
          rfl
        · cases h
          exact (List.Perm.cons x (ih hr)).trans (List.Perm.swap _ x rest')

/-- The popped node has minimal `f` among the open list. -/
theorem popMin_min {l : List AStarNode} {n : AStarNode} {rest : List AStarNode}
    (h : popMin l = some (n, rest)) : ∀ m ∈ l, n.f ≤ m.f := by
  induction l generalizing n rest with
  | nil => cases h
  | cons x xs ih =>
      rw [popMin] at h
      rcases hr : popMin xs with _ | ⟨m0, rest'⟩
      · rw [hr] at h
        have hx : xs = [] := popMin_eq_none.mp hr
        subst hx
        cases h
        intro m hm
        rcases List.mem_cons.mp hm with rfl | hm
        · exact le_refl _
        · simp at hm
      · rw [hr] at h
        dsimp at h
        split at h <;> rename_i hle
        · cases h
          intro m hm
          rcases List.mem_cons.mp hm with rfl | hm
          · exact le_refl _
          · exact hle.trans (ih hr m hm)
        · cases h
          intro m hm
          rcases List.mem_cons.mp hm with rfl | hm
          · exact (not_le.mp hle).le
          · exact ih hr m hm

/-- A successful association-list lookup exhibits a member pair. -/
theorem mem_of_lookup_eq_some {β : Type} {l : List (ℕ × β)} {k : ℕ} {v : β}
    (h : l.lookup k = some v) : (k, v) ∈ l := by
  induction l with
  | nil => simp [List.lookup] at h
  | cons x xs ih =>
      rw [List.lookup] at h
      split at h
      · cases h
        rename_i he
        have hk : k = x.1 := by simpa using he
        subst hk
        exact List.mem_cons_self x xs

      · exact List.mem_cons_of_mem _ (ih h)

theorem lookup_cons_self {β : Type} (l : List (ℕ × β)) (k : ℕ) (x : β) :
    ((k, x) :: l).lookup k = some x := by
  simp [List.lookup]

theorem lookup_cons_ne {β : Type} (l : List (ℕ × β)) {k k' : ℕ} (x : β)
    (h : k' ≠ k) : ((k, x) :: l).lookup k' = l.lookup k' := by
  have hb : (k' == k) = false := beq_eq_false_iff_ne.mpr h
  simp [List.lookup, hb]

/-- Any chain to an unsettled target either starts unsettled or crosses a
first edge from a settled node to an unsettled one. -/
theorem path_frontier {db : SearchDB} (closed : List ℕ) {s t : ℕ}
    {p : List ConnectionRow} (hp : ConnPath db s t p) (ht : t ∉ closed) :
    s ∉ closed ∨
    ∃ p₁ e p₂, p = p₁ ++ e :: p₂ ∧ ConnPath db s e.from_id p₁ ∧
      e ∈ db.connections ∧ e.from_id ∈ closed ∧ e.to_id ∉ closed ∧
      ConnPath db e.to_id t p₂ := by
  induction hp with
  | nil => exact Or.inl ht
  | @cons a b c p hc hf htail ih =>
      by_cases hs : a ∈ closed
      · rcases ih ht with hy | ⟨p₁, e, p₂, rfl, h1, h2, h3, h4, h5⟩
        · refine Or.inr ⟨[], c, p, rfl, ?_, hc, ?_, hy, htail⟩
          · rw [hf]; exact ConnPath.nil a
          · rw [hf]; exact hs
        · exact Or.inr ⟨c :: p₁, e, p₂, rfl, ConnPath.cons hc hf h1, h2, h3, h4, h5⟩
      · exact Or.inl hs

/-- When a node not yet closed is popped, its `g_cost` equals the current
g-score of its id and is minimal over all chains from the start: the
Dijkstra settling argument, using the zero heuristic (`f = g`). -/
theorem popped_settled {db : SearchDB} {w : OptWeights} {scores : List (ℕ × ℚ)}
    {start_id goal_id : ℕ}
    (hwc : ∀ c ∈ db.connections, 0 ≤ edgeCost w scores c)
    {st : AState} (inv : AInv db w scores start_id goal_id st)
    {cur : AStarNode} {rest : List AStarNode}
    (hpop : popMin st.open_set = some (cur, rest))
    (hnc : cur.attraction_id ∉ st.closed_set) :
    st.g_scores.lookup cur.attraction_id = some cur.g_cost ∧
    IsShortestCost db w scores start_id cur.attraction_id cur.g_cost := by
  have hcur_mem : cur ∈ st.open_set :=
    (popMin_perm hpop).mem_iff.mpr (List.mem_cons_self _ _)
  obtain ⟨c, hc, hle⟩ := inv.opG cur hcur_mem
  have hfc : cur.f = cur.g_cost := by
    rw [AStarNode.f, inv.opH cur hcur_mem, add_zero]
  have hceq : c = cur.g_cost := by
    by_contra hne
    have hlt : c < cur.g_cost := lt_of_le_of_ne hle hne
    obtain ⟨m, hm, hmid, hmg⟩ := inv.opCover _ _ hnc hc
    have h1 : cur.f ≤ m.f := popMin_min hpop m hm
    have hfm : m.f = c := by rw [AStarNode.f, inv.opH m hm, add_zero, hmg]
    rw [hfc, hfm] at h1
    exact absurd h1 (not_le.mpr hlt)
  subst hceq
  refine ⟨hc, inv.gW _ _ hc, ?_⟩
  intro p hp
  rcases path_frontier st.closed_set hp hnc with hs | ⟨p₁, e, p₂, rfl, h1, h2, h3, h4, h5⟩
  · obtain ⟨m, hm, hmid, hmg⟩ := inv.opCover _ _ hs inv.g0
    have hmin := popMin_min hpop m hm
    have hfm : m.f = 0 := by rw [AStarNode.f, inv.opH m hm, add_zero, hmg]
    rw [hfc, hfm] at hmin
    have hp0 : 0 ≤ pathCost w scores p := pathCost_nonneg hwc hp
    linarith
  · obtain ⟨cx, hgx, hxmin⟩ := inv.clMin _ h3
    obtain ⟨cu, cv, hgu, hgv, hrel⟩ := inv.rx _ h3 e h2 rfl (List.not_mem_nil e)
    have hcucx : cu = cx := by
      rw [hgx] at hgu
      exact (Option.some.inj hgu).symm
    obtain ⟨m, hm, hmid, hmg⟩ := inv.opCover _ _ h4 hgv
    have hmin := popMin_min hpop m hm
    have hfm : m.f = cv := by rw [AStarNode.f, inv.opH m hm, add_zero, hmg]
    rw [hfc, hfm] at hmin
    rw [pathCost_append, pathCost_cons]
    have hx1 : cx ≤ pathCost w scores p₁ := hxmin.2 p₁ h1
    have hp2 : 0 ≤ pathCost w scores p₂ := pathCost_nonneg hwc h5
    linarith [hrel, hcucx ▸ hx1]

/-- The invariant survives the update branch of one relaxation: when the
neighbor is unsettled and the tentative cost beats every stored score,
pushing the improved g-score, parent pointer and open node keeps every
clause of `AInvP` and discharges the pending obligation for that edge. -/
theorem relax_update_invariant {db : SearchDB} {w : OptWeights}
    {scores : List (ℕ × ℚ)} {start_id goal_id : ℕ}
    (hwc : ∀ c ∈ db.connections, 0 ≤ edgeCost w scores c)
    {cur : AStarNode} {st : AState} {e : ConnectionRow}
    {pend : List ConnectionRow}
    (he : e ∈ db.connections) (hef : e.from_id = cur.attraction_id)
    (hcc : cur.attraction_id ∈ st.closed_set)
    (hgcur : st.g_scores.lookup cur.attraction_id = some cur.g_cost)
    (hgnn : 0 ≤ cur.g_cost)
    (hvnot : e.to_id ∉ st.closed_set)
    (hlt : ∀ g0, st.g_scores.lookup e.to_id = some g0 →
      cur.g_cost + edgeCost w scores e < g0)
    (inv : AInvP db w scores start_id goal_id (e :: pend) st) :
    AInvP db w scores start_id goal_id pend
      { st with
        open_set := st.open_set ++
          [⟨e.to_id, cur.g_cost + edgeCost w scores e, 0,
            some cur.attraction_id⟩],
        came_from := (e.to_id, cur.attraction_id) :: st.came_from,
        g_scores := (e.to_id, cur.g_cost + edgeCost w scores e)
          :: st.g_scores } := by
  have hwcE := hwc e he
  have htnn : 0 ≤ cur.g_cost + edgeCost w scores e := add_nonneg hgnn hwcE
  have hvne_cur : e.to_id ≠ cur.attraction_id := fun h => hvnot (h ▸ hcc)
  have hvne_start : e.to_id ≠ start_id := by
    intro h
    have := hlt 0 (by rw [h]; exact inv.g0)
    exact absurd this (not_lt.mpr htnn)
  obtain ⟨pc, hpc, hpcc⟩ := inv.gW _ _ hgcur
  have hext : ConnPath db start_id e.to_id (pc ++ [e]) :=
    connPath_append_edge hpc he hef
  have hextc : pathCost w scores (pc ++ [e])
      = cur.g_cost + edgeCost w scores e := by
    rw [pathCost_append, hpcc]
    simp [pathCost]
  refine ⟨?_, ?_, ?_, ?_, ?_, ?_, ?_, ?_, ?_, ?_, ?_, ?_, ?_⟩ <;> (try dsimp only)
  · -- gW: the new entry is witnessed by the extended chain
    intro v c h
    by_cases hv : v = e.to_id
    · subst hv
      rw [lookup_cons_self] at h
      exact ⟨pc ++ [e], hext, by rw [hextc]; exact Option.some.inj h⟩
    · rw [lookup_cons_ne _ _ hv] at h
      exact inv.gW _ _ h
  · -- g0: the start's score is not shadowed
    rw [lookup_cons_ne _ _ (Ne.symm hvne_start)]
    exact inv.g0
  · -- clMin: closed nodes are distinct from the updated neighbor
    intro u hu
    have hune : u ≠ e.to_id := fun h => hvnot (h ▸ hu)
    obtain ⟨c, hc, hmin⟩ := inv.clMin u hu
    exact ⟨c, by rw [lookup_cons_ne _ _ hune]; exact hc, hmin⟩
  · -- rx: the pending edge is now relaxed; older obligations survive
    intro u hu e' he' hfe' hpe'
    have hune : u ≠ e.to_id := fun h => hvnot (h ▸ hu)
    by_cases hee : e' = e
    · rw [hee] at hfe' ⊢
      have hu' : u = cur.attraction_id := by rw [← hfe']; exact hef
      subst hu'
      refine ⟨cur.g_cost, cur.g_cost + edgeCost w scores e, ?_,
        lookup_cons_self _ _ _, le_refl _⟩
      rw [lookup_cons_ne _ _ hune]
      exact hgcur
    · obtain ⟨cu, cv, hgu, hgv, hle⟩ :=
        inv.rx u hu e' he' hfe' (by simp [hee, hpe'])
      by_cases hto : e'.to_id = e.to_id
      · refine ⟨cu, cur.g_cost + edgeCost w scores e, ?_, ?_, ?_⟩
        · rw [lookup_cons_ne _ _ hune]; exact hgu
        · rw [hto, lookup_cons_self]
        · exact le_of_lt (lt_of_lt_of_le (hlt cv (hto ▸ hgv)) hle)
      · refine ⟨cu, cv, ?_, ?_, hle⟩
        · rw [lookup_cons_ne _ _ hune]; exact hgu
        · rw [lookup_cons_ne _ _ hto]; exact hgv
  · -- opCover: the new entry is covered by the pushed node
    intro v c hnc h
    by_cases hv : v = e.to_id
    · subst hv
      rw [lookup_cons_self] at h
      exact ⟨⟨e.to_id, cur.g_cost + edgeCost w scores e, 0,
        some cur.attraction_id⟩, by simp, rfl, Option.some.inj h⟩
    · rw [lookup_cons_ne _ _ hv] at h
      obtain ⟨n, hn, hna, hng⟩ := inv.opCover v c hnc h
      exact ⟨n, List.mem_append_left _ hn, hna, hng⟩
  · -- opG: stored scores only decrease
    intro n hn
    rcases List.mem_append.mp hn with hn' | hn'
    · obtain ⟨c, hc, hle⟩ := inv.opG n hn'
      by_cases hna : n.attraction_id = e.to_id
      · exact ⟨cur.g_cost + edgeCost w scores e,
          by rw [hna, lookup_cons_self],
          le_of_lt (lt_of_lt_of_le (hlt c (hna ▸ hc)) hle)⟩
      · exact ⟨c, by rw [lookup_cons_ne _ _ hna]; exact hc, hle⟩
    · rw [List.mem_singleton] at hn'
      subst hn'
      exact ⟨cur.g_cost + edgeCost w scores e, lookup_cons_self _ _ _,
        le_refl _⟩
  · -- opH: the pushed node carries the zero heuristic
    intro n hn
    rcases List.mem_append.mp hn with hn' | hn'
    · exact inv.opH n hn'
    · rw [List.mem_singleton] at hn'
      subst hn'
      rfl
  · -- cf1: the new parent pointer is justified by `e` itself
    intro v u h
    by_cases hv : v = e.to_id
    · subst hv
      rw [lookup_cons_self] at h
      have hu : u = cur.attraction_id := (Option.some.inj h).symm
      subst hu
      refine ⟨e, he, hef, rfl, cur.g_cost,
        cur.g_cost + edgeCost w scores e, ?_,
        lookup_cons_self _ _ _, le_refl _⟩
      rw [lookup_cons_ne _ _ (Ne.symm hvne_cur)]
      exact hgcur
    · rw [lookup_cons_ne _ _ hv] at h
      obtain ⟨e', he', hfu, htv, cu, cv, hgu, hgv, hle⟩ := inv.cf1 v u h
      by_cases hu' : u = e.to_id
      · refine ⟨e', he', hfu, htv, cur.g_cost + edgeCost w scores e, cv,
          ?_, ?_, ?_⟩
        · rw [hu', lookup_cons_self]
        · rw [lookup_cons_ne _ _ hv]; exact hgv
        · exact le_trans
            (add_le_add_right (le_of_lt (hlt cu (hu' ▸ hgu))) _) hle
      · refine ⟨e', he', hfu, htv, cu, cv, ?_, ?_, hle⟩
        · rw [lookup_cons_ne _ _ hu']; exact hgu
        · rw [lookup_cons_ne _ _ hv]; exact hgv
  · -- cfRank: the parent is closed earlier than the unsettled child
    intro v u h
    by_cases hv : v = e.to_id
    · subst hv
      rw [lookup_cons_self] at h
      have hu : u = cur.attraction_id := (Option.some.inj h).symm
      subst hu
      refine ⟨hcc, ?_⟩
      rw [List.indexOf_eq_length.mpr hvnot]
      exact List.indexOf_lt_length.mpr hcc
    · rw [lookup_cons_ne _ _ hv] at h
      exact inv.cfRank v u h
  · -- cfStart: the start never gains a parent
    rw [lookup_cons_ne _ _ (Ne.symm hvne_start)]
    exact inv.cfStart
  · -- dom: the new score is backed by the new parent pointer
    intro v c h
    by_cases hv : v = e.to_id
    · subst hv
      right
      rw [lookup_cons_self]
      rfl
    · rw [lookup_cons_ne _ _ hv] at h
      rcases inv.dom v c h with h0 | hsome
      · exact Or.inl h0
      · right
        rw [lookup_cons_ne _ _ hv]
        exact hsome
  · exact inv.clNodup
  · exact inv.goalNotClosed

/-- One neighbor relaxation preserves the invariant, discharging the
pending obligation for that edge: closed nodes and their g-scores are
untouched, and any update strictly improves the neighbor's tentative
cost. -/
theorem relaxOne_preserves {db : SearchDB} {w : OptWeights}
    {scores : List (ℕ × ℚ)} {start_id goal_id : ℕ}
    (hwc : ∀ c ∈ db.connections, 0 ≤ edgeCost w scores c)
    (hwf : ∀ c ∈ db.connections, ∃ a ∈ db.attractions, a.id = c.to_id)
    {end_attr : AttractionRow} {cur : AStarNode} {st : AState}
    {e : ConnectionRow} {pend : List ConnectionRow}
    (he : e ∈ db.connections) (hef : e.from_id = cur.attraction_id)
    (hcc : cur.attraction_id ∈ st.closed_set)
    (hgcur : st.g_scores.lookup cur.attraction_id = some cur.g_cost)
    (hgnn : 0 ≤ cur.g_cost)
    (inv : AInvP db w scores start_id goal_id (e :: pend) st) :
    AInvP db w scores start_id goal_id pend
      (relaxOne db w scores zero_heuristic end_attr cur st e) ∧
    (relaxOne db w scores zero_heuristic end_attr cur st e).closed_set
      = st.closed_set ∧
    (relaxOne db w scores zero_heuristic end_attr cur st e).g_scores.lookup
      cur.attraction_id = some cur.g_cost ∧
    (relaxOne db w scores zero_heuristic end_attr cur st e).nodes_explored
      = st.nodes_explored := by
  have hwcE := hwc e he
  simp only [relaxOne]
  by_cases hcl : st.closed_set.contains e.to_id = true
  · rw [if_pos hcl]
    have hclmem : e.to_id ∈ st.closed_set := by simpa using hcl
    obtain ⟨pc, hpc, hpcc⟩ := inv.gW _ _ hgcur
    have hext : ConnPath db start_id e.to_id (pc ++ [e]) :=
      connPath_append_edge hpc he hef
    have hextc : pathCost w scores (pc ++ [e])
        = cur.g_cost + edgeCost w scores e := by
      rw [pathCost_append, hpcc]
      simp [pathCost]
    obtain ⟨cv, hgv, hvmin⟩ := inv.clMin _ hclmem
    have hrelaxed : cv ≤ cur.g_cost + edgeCost w scores e := by
      have h2 := hvmin.2 _ hext
      rwa [hextc] at h2
    refine ⟨?_, rfl, hgcur, rfl⟩
    refine ⟨inv.gW, inv.g0, inv.clMin, ?_, inv.opCover, inv.opG, inv.opH,
      inv.cf1, inv.cfRank, inv.cfStart, inv.dom, inv.clNodup, inv.goalNotClosed⟩
    intro u hu e' he' hfe' hpe'
    by_cases hee : e' = e
    · subst hee
      have hu' : u = cur.attraction_id := by rw [← hfe']; exact hef
      subst hu'
      exact ⟨cur.g_cost, cv, hgcur, hgv, hrelaxed⟩
    · exact inv.rx u hu e' he' hfe' (by simp [hee, hpe'])
  · rw [if_neg hcl]
    have hvnot : e.to_id ∉ st.closed_set := by simpa using hcl
    have hvne_cur : e.to_id ≠ cur.attraction_id := fun h => hvnot (h ▸ hcc)
    have hfind : ∃ na, db.attractions.find? (fun a => a.id == e.to_id)
        = some na := by
      obtain ⟨a, ha, haid⟩ := hwf e he
      rcases hf : db.attractions.find? (fun a => a.id == e.to_id) with _ | na
      · rw [List.find?_eq_none] at hf
        exact absurd (by simpa using haid) (by simpa using hf a ha)
      · exact ⟨na, hf⟩
    obtain ⟨na, hna⟩ := hfind
    rcases hv : st.g_scores.lookup e.to_id with _ | g0
    · simp only [hv, hna]
      rw [if_pos trivial]
      refine ⟨?_, rfl, ?_, rfl⟩
      · exact relax_update_invariant hwc he hef hcc hgcur hgnn hvnot
          (fun g1 hg1 => by rw [hv] at hg1; exact Option.noConfusion hg1) inv
      · show ((e.to_id, cur.g_cost + edgeCost w scores e)
            :: st.g_scores).lookup cur.attraction_id = some cur.g_cost
        rw [lookup_cons_ne _ _ (Ne.symm hvne_cur)]
        exact hgcur
    · simp only [hv, hna]
      by_cases hlt : cur.g_cost + edgeCost w scores e < g0
      · rw [if_pos (decide_eq_true hlt)]
        refine ⟨?_, rfl, ?_, rfl⟩
        · exact relax_update_invariant hwc he hef hcc hgcur hgnn hvnot
            (fun g1 hg1 => by
              rw [hv] at hg1
              rw [← Option.some.inj hg1]
              exact hlt) inv
        · show ((e.to_id, cur.g_cost + edgeCost w scores e)
              :: st.g_scores).lookup cur.attraction_id = some cur.g_cost
          rw [lookup_cons_ne _ _ (Ne.symm hvne_cur)]
          exact hgcur
      · rw [if_neg (by simpa using hlt)]
        refine ⟨?_, rfl, hgcur, rfl⟩
        refine ⟨inv.gW, inv.g0, inv.clMin, ?_, inv.opCover, inv.opG, inv.opH,
          inv.cf1, inv.cfRank, inv.cfStart, inv.dom, inv.clNodup,
          inv.goalNotClosed⟩
        intro u hu e' he' hfe' hpe'
        by_cases hee : e' = e
        · subst hee
          have hu' : u = cur.attraction_id := by rw [← hfe']; exact hef
          subst hu'
          exact ⟨cur.g_cost, g0, hgcur, hv, le_of_not_lt hlt⟩
        · exact inv.rx u hu e' he' hfe' (by simp [hee, hpe'])

/-- Folding the relaxation over a list of out-edges of the newly closed
node discharges every pending obligation while leaving the closed set,
the closed node's score and the exploration counter untouched. -/
theorem relaxFold_preserves {db : SearchDB} {w : OptWeights}
    {scores : List (ℕ × ℚ)} {start_id goal_id : ℕ}
    (hwc : ∀ c ∈ db.connections, 0 ≤ edgeCost w scores c)
    (hwf : ∀ c ∈ db.connections, ∃ a ∈ db.attractions, a.id = c.to_id)
    {end_attr : AttractionRow} {cur : AStarNode} (hgnn : 0 ≤ cur.g_cost) :
    ∀ (conns : List ConnectionRow) (st : AState),
    (∀ e ∈ conns, e ∈ db.connections ∧ e.from_id = cur.attraction_id) →
    cur.attraction_id ∈ st.closed_set →
    st.g_scores.lookup cur.attraction_id = some cur.g_cost →
    AInvP db w scores start_id goal_id conns st →
    AInvP db w scores start_id goal_id []
      (conns.foldl (relaxOne db w scores zero_heuristic end_attr cur) st) ∧
    (conns.foldl (relaxOne db w scores zero_heuristic end_attr cur)
      st).closed_set = st.closed_set ∧
    (conns.foldl (relaxOne db w scores zero_heuristic end_attr cur)
      st).nodes_explored = st.nodes_explored := by
  intro conns
  induction conns with
  | nil =>
      intro st _ _ _ inv
      exact ⟨inv, rfl, rfl⟩
  | cons e rest ih =>
      intro st hcs hcl hg inv
      obtain ⟨he, hef⟩ := hcs e (List.mem_cons_self e rest)
      obtain ⟨inv1, hcl1, hg1, hne1⟩ :=
        relaxOne_preserves hwc hwf he hef hcl hg hgnn inv
      rw [List.foldl_cons]
      obtain ⟨inv2, hcl2, hne2⟩ := ih
        (relaxOne db w scores zero_heuristic end_attr cur st e)
        (fun e' he' => hcs e' (List.mem_cons_of_mem e he'))
        (hcl1 ▸ hcl) hg1 inv1
      exact ⟨inv2, hcl2.trans hcl1, hne2.trans hne1⟩

/-- Popping a stale (already-closed) node preserves the invariant: the
open set only shrinks and every other component is unchanged. -/
theorem skip_step_inv {db : SearchDB} {w : OptWeights}
    {scores : List (ℕ × ℚ)} {start_id goal_id : ℕ} {st : AState}
    (inv : AInv db w scores start_id goal_id st)
    {cur : AStarNode} {rest : List AStarNode}
    (hpop : popMin st.open_set = some (cur, rest))
    (hc : cur.attraction_id ∈ st.closed_set) :
    AInv db w scores start_id goal_id
      { st with open_set := rest,
                nodes_explored := st.nodes_explored + 1 } := by
  have hperm := popMin_perm hpop
  refine ⟨inv.gW, inv.g0, inv.clMin, ?_, ?_, ?_, ?_, inv.cf1, inv.cfRank,
    inv.cfStart, inv.dom, inv.clNodup, inv.goalNotClosed⟩
  · intro u hu e he hfe hpe
    exact inv.rx u hu e he hfe hpe
  · intro v c hnc h
    obtain ⟨n, hn, hna, hng⟩ := inv.opCover v c hnc h
    have hn' : n ∈ cur :: rest := hperm.mem_iff.mp hn
    rcases List.mem_cons.mp hn' with rfl | hn''
    · exact absurd (hna ▸ hc) hnc
    · exact ⟨n, hn'', hna, hng⟩
  · intro n hn
    exact inv.opG n (hperm.mem_iff.mpr (List.mem_cons_of_mem cur hn))
  · intro n hn
    exact inv.opH n (hperm.mem_iff.mpr (List.mem_cons_of_mem cur hn))

/-- Closing a freshly popped, unsettled node preserves the invariant,
with the node's out-edges becoming the pending relaxation obligations;
the popped node's g-score is exact and nonnegative. -/
theorem close_step_inv {db : SearchDB} {w : OptWeights}
    {scores : List (ℕ × ℚ)} {start_id goal_id : ℕ} {st : AState}
    (hwc : ∀ c ∈ db.connections, 0 ≤ edgeCost w scores c)
    (inv : AInv db w scores start_id goal_id st)
    {cur : AStarNode} {rest : List AStarNode}
    (hpop : popMin st.open_set = some (cur, rest))
    (hnc : cur.attraction_id ∉ st.closed_set)
    (hng : cur.attraction_id ≠ goal_id) :
    AInvP db w scores start_id goal_id (getNeighborsA db cur.attraction_id)
      { st with open_set := rest,
                closed_set := st.closed_set ++ [cur.attraction_id],
                nodes_explored := st.nodes_explored + 1 } ∧
    st.g_scores.lookup cur.attraction_id = some cur.g_cost ∧
    0 ≤ cur.g_cost := by
  have hperm := popMin_perm hpop
  obtain ⟨hg, hshort⟩ := popped_settled hwc inv hpop hnc
  have hgnn : 0 ≤ cur.g_cost := by
    obtain ⟨p, hp, hpc⟩ := hshort.1
    exact hpc ▸ pathCost_nonneg hwc hp
  refine ⟨⟨inv.gW, inv.g0, ?_, ?_, ?_, ?_, ?_, inv.cf1, ?_, inv.cfStart,
    inv.dom, ?_, ?_⟩, hg, hgnn⟩
  · -- clMin: the newly closed node is settled by `popped_settled`
    intro u hu
    rcases List.mem_append.mp hu with hu' | hu'
    · exact inv.clMin u hu'
    · rw [List.mem_singleton] at hu'
      subst hu'
      exact ⟨cur.g_cost, hg, hshort⟩
  · -- rx: obligations of old closed nodes hold; the new node's out-edges
    -- are all pending
    intro u hu e he hfe hpe
    rcases List.mem_append.mp hu with hu' | hu'
    · exact inv.rx u hu' e he hfe (List.not_mem_nil e)
    · rw [List.mem_singleton] at hu'
      subst hu'
      exact absurd (List.mem_filter.mpr ⟨he, by simp [hfe]⟩) hpe
  · -- opCover: the popped node cannot cover an unsettled score anymore
    intro v c hncv h
    have hnc' : v ∉ st.closed_set := fun hv =>
      hncv (List.mem_append_left _ hv)
    have hvne : v ≠ cur.attraction_id := fun hv =>
      hncv (List.mem_append_right _ (List.mem_singleton.mpr hv))
    obtain ⟨n, hn, hna, hng'⟩ := inv.opCover v c hnc' h
    have hn' : n ∈ cur :: rest := hperm.mem_iff.mp hn
    rcases List.mem_cons.mp hn' with rfl | hn''
    · exact absurd hna hvne.symm
    · exact ⟨n, hn'', hna, hng'⟩
  · intro n hn
    exact inv.opG n (hperm.mem_iff.mpr (List.mem_cons_of_mem cur hn))
  · intro n hn
    exact inv.opH n (hperm.mem_iff.mpr (List.mem_cons_of_mem cur hn))
  · -- cfRank: indices are stable under appending the new closed node
    intro v u h
    obtain ⟨hu, hlt⟩ := inv.cfRank v u h
    refine ⟨List.mem_append_left _ hu, ?_⟩
    rw [List.indexOf_append_of_mem hu]
    by_cases hv : v ∈ st.closed_set
    · rw [List.indexOf_append_of_mem hv]
      exact hlt
    · rw [List.indexOf_append_of_not_mem hv]
      calc st.closed_set.indexOf u
          < st.closed_set.length := by
            rw [← List.indexOf_eq_length.mpr hv]
            exact hlt
        _ ≤ st.closed_set.length + [cur.attraction_id].indexOf v :=
            Nat.le_add_right _ _
  · -- clNodup
    rw [List.nodup_append]
    exact ⟨inv.clNodup, List.nodup_singleton _,
      fun a ha hb => hnc ((List.mem_singleton.mp hb) ▸ ha)⟩
  · -- goalNotClosed
    intro hgo
    rcases List.mem_append.mp hgo with h' | h'
    · exact inv.goalNotClosed h'
    · exact hng (List.mem_singleton.mp h').symm

/-- While a path to the unsettled goal exists, the open set cannot be
empty: some node on the frontier of the closed region is open. -/
theorem open_ne_nil_of_path {db : SearchDB} {w : OptWeights}
    {scores : List (ℕ × ℚ)} {start_id goal_id : ℕ} {st : AState}
    (inv : AInv db w scores start_id goal_id st)
    {p : List ConnectionRow} (hp : ConnPath db start_id goal_id p) :
    st.open_set ≠ [] := by
  rcases path_frontier st.closed_set hp inv.goalNotClosed with hs | hfr
  · obtain ⟨n, hn, _, _⟩ := inv.opCover start_id 0 hs inv.g0
    exact List.ne_nil_of_mem hn
  · obtain ⟨p₁, e, p₂, _, _, he, hfc, hnc, _⟩ := hfr
    obtain ⟨cu, cv, _, hgv, _⟩ := inv.rx _ hfc e he rfl (List.not_mem_nil e)
    obtain ⟨n, hn, _, _⟩ := inv.opCover _ _ hnc hgv
    exact List.ne_nil_of_mem hn

/-- When an unsettled node has a parent pointer, the closed set is no
longer than `came_from`: every closed node except the start, plus that
node, has its own `came_from` entry, and these keys are distinct. -/
theorem closed_length_le_cf {db : SearchDB} {w : OptWeights}
    {scores : List (ℕ × ℚ)} {start_id goal_id : ℕ}
    {pend : List ConnectionRow} {st : AState}
    (inv : AInvP db w scores start_id goal_id pend st)
    {gl u0 : ℕ} (hgl : gl ∉ st.closed_set)
    (hcf : st.came_from.lookup gl = some u0) :
    st.closed_set.length ≤ st.came_from.length := by
  have hkey : ∀ u x, st.came_from.lookup u = some x →
      u ∈ st.came_from.map Prod.fst := by
    intro u x hx
    exact List.mem_map_of_mem Prod.fst (mem_of_lookup_eq_some hx)
  have hsub : gl :: st.closed_set ⊆ start_id :: st.came_from.map Prod.fst := by
    intro x hx
    rcases List.mem_cons.mp hx with rfl | hx'
    · exact List.mem_cons_of_mem _ (hkey _ _ hcf)
    · by_cases hxs : x = start_id
      · exact hxs ▸ List.mem_cons_self _ _
      · obtain ⟨c, hc, _⟩ := inv.clMin x hx'
        rcases inv.dom x c hc with h0 | hsome
        · exact absurd h0 hxs
        · obtain ⟨y, hy⟩ := Option.isSome_iff_exists.mp hsome
          exact List.mem_cons_of_mem _ (hkey _ _ hy)
  have hnd : (gl :: st.closed_set).Nodup :=
    List.nodup_cons.mpr ⟨hgl, inv.clNodup⟩
  have hle := (List.subperm_of_subset hnd hsub).length_le
  simpa using hle

/-- Walking the parent pointers from any scored node reconstructs a real
connection chain from the start whose cost is bounded by the stored
score, provided the fuel exceeds the node's closing rank. -/
theorem walk_builds_path {db : SearchDB} {w : OptWeights}
    {scores : List (ℕ × ℚ)} {start_id goal_id : ℕ}
    {pend : List ConnectionRow} {st : AState}
    (inv : AInvP db w scores start_id goal_id pend st) :
    ∀ (fuel : ℕ) (v : ℕ) (c : ℚ), st.closed_set.indexOf v < fuel →
      st.g_scores.lookup v = some c →
      ∃ p, ConnPath db start_id v p ∧ pathCost w scores p ≤ c ∧
        walkParents st.came_from fuel v = pathNodes start_id p := by
  intro fuel
  induction fuel with
  | zero => intro v c h; cases h
  | succ fuel ih =>
      intro v c hrank hc
      rcases hcf : st.came_from.lookup v with _ | u
      · -- no parent: by `dom` this is the start, with score 0
        have hv : v = start_id := by
          rcases inv.dom v c hc with h0 | hsome
          · exact h0
          · rw [hcf] at hsome
            cases hsome
        subst hv
        have hc0 : c = 0 := by
          rw [inv.g0] at hc
          exact (Option.some.inj hc).symm
        refine ⟨[], ConnPath.nil _, by rw [hc0]; simp [pathCost], ?_⟩
        rw [walkParents, hcf]
        rfl
      · -- parent edge from `cf1`; the parent closed strictly earlier
        obtain ⟨e, he, hfu, htv, cu, cv, hgu, hgv, hle⟩ := inv.cf1 v u hcf
        have hcv : c = cv := by
          rw [hgv] at hc
          exact (Option.some.inj hc).symm
        obtain ⟨hucl, hult⟩ := inv.cfRank v u hcf
        have hurank : st.closed_set.indexOf u < fuel :=
          lt_of_lt_of_le hult (Nat.lt_succ_iff.mp hrank)
        obtain ⟨p', hp', hpc', hwalk'⟩ := ih u cu hurank hgu
        refine ⟨p' ++ [e], ?_, ?_, ?_⟩
        · rw [← htv]
          exact connPath_append_edge hp' he hfu
        · rw [pathCost_append, hcv]
          have : pathCost w scores [e] = edgeCost w scores e := by
            simp [pathCost]
          rw [this]
          calc pathCost w scores p' + edgeCost w scores e
              ≤ cu + edgeCost w scores e := add_le_add_right hpc' _
            _ ≤ cv := hle
        · simp only [walkParents, hcf, hwalk']
          simp [pathNodes, htv]

/-- When the goal is popped, the reconstructed parent-pointer path is a
real connection chain from the start whose cost is the minimum over all
start-to-goal chains. -/
theorem goal_pop_route {db : SearchDB} {w : OptWeights}
    {scores : List (ℕ × ℚ)} {start_id goal_id : ℕ} {st : AState}
    (hwc : ∀ c ∈ db.connections, 0 ≤ edgeCost w scores c)
    (inv : AInv db w scores start_id goal_id st)
    {cur : AStarNode} {rest : List AStarNode}
    (hpop : popMin st.open_set = some (cur, rest))
    (hge : cur.attraction_id = goal_id) :
    ∃ p, ConnPath db start_id goal_id p ∧
      IsShortestCost db w scores start_id goal_id (pathCost w scores p) ∧
      reconstruct_path st.came_from goal_id = pathNodes start_id p := by
  subst hge
  have hnc : cur.attraction_id ∉ st.closed_set := inv.goalNotClosed
  obtain ⟨hg, hshort⟩ := popped_settled hwc inv hpop hnc
  rcases hcf : st.came_from.lookup cur.attraction_id with _ | u0
  · -- the goal has no parent: it is the start and the empty chain wins
    have hv : cur.attraction_id = start_id := by
      rcases inv.dom _ _ hg with h0 | hsome
      · exact h0
      · rw [hcf] at hsome
        cases hsome
    refine ⟨[], by rw [hv]; exact ConnPath.nil start_id, ?_, ?_⟩
    · constructor
      · exact ⟨[], by rw [hv]; exact ConnPath.nil start_id, rfl⟩
      · intro p hp
        have : pathCost w scores ([] : List ConnectionRow) = 0 := by
          simp [pathCost]
        rw [this]
        exact pathCost_nonneg hwc hp
    · simp only [reconstruct_path, walkParents, hcf]
      simp [pathNodes, hv]
  · -- the goal has a parent: the walk applies, with enough fuel because
    -- the closed set is no longer than `came_from`
    have hlen : st.closed_set.length ≤ st.came_from.length :=
      closed_length_le_cf inv hnc hcf
    have hrank : st.closed_set.indexOf cur.attraction_id
        < st.came_from.length + 1 := by
      rw [List.indexOf_eq_length.mpr hnc]
      exact Nat.lt_succ_of_le hlen
    obtain ⟨p, hp, hpc, hwalk⟩ :=
      walk_builds_path inv (st.came_from.length + 1) cur.attraction_id
        cur.g_cost hrank hg
    have heq : pathCost w scores p = cur.g_cost :=
      le_antisymm hpc (hshort.2 p hp)
    exact ⟨p, hp, by rw [heq]; exact hshort, hwalk⟩

/-- The main loop theorem: from an invariant state, while a start-to-goal
chain exists, the loop either returns a shortest path (as an attraction
sequence traced by a real connection chain of minimal cost) or exhausts
its entire fuel, incrementing the exploration counter once per
iteration. -/
theorem astarLoop_correct {db : SearchDB} {w : OptWeights}
    {scores : List (ℕ × ℚ)} {start_id goal_id : ℕ}
    {end_attr : AttractionRow} {mode : String}
    (hwc : ∀ c ∈ db.connections, 0 ≤ edgeCost w scores c)
    (hwf : ∀ c ∈ db.connections, ∃ a ∈ db.attractions, a.id = c.to_id) :
    ∀ (fuel : ℕ) (st : AState),
    AInv db w scores start_id goal_id st →
    (∃ p0, ConnPath db start_id goal_id p0) →
    ((astarLoop db w scores zero_heuristic end_attr goal_id mode fuel
        st).1.path_found = true →
      ∃ p, ConnPath db start_id goal_id p ∧
        IsShortestCost db w scores start_id goal_id (pathCost w scores p) ∧
        (astarLoop db w scores zero_heuristic end_attr goal_id mode fuel
          st).1.attractions = pathNodes start_id p) ∧
    ((astarLoop db w scores zero_heuristic end_attr goal_id mode fuel
        st).1.path_found = false →
      (astarLoop db w scores zero_heuristic end_attr goal_id mode fuel
        st).2.nodes_explored = st.nodes_explored + fuel) := by
  intro fuel
  induction fuel with
  | zero =>
      intro st _ _
      constructor
      · intro h
        simp [astarLoop, create_empty_route] at h
      · intro _
        simp [astarLoop]
  | succ fuel ih =>
      intro st inv hex
      obtain ⟨p0, hp0⟩ := hex
      rcases hpop : popMin st.open_set with _ | ⟨cur, rest⟩
      · exact absurd (popMin_eq_none.mp hpop) (open_ne_nil_of_path inv hp0)
      · by_cases hge : cur.attraction_id = goal_id
        · -- the goal is popped: the built route is a shortest path
          obtain ⟨p, hp, hshort, hrec⟩ := goal_pop_route hwc inv hpop hge
          constructor
          · intro _
            refine ⟨p, hp, hshort, ?_⟩
            simp only [astarLoop, hpop]
            rw [if_pos (beq_iff_eq.mpr hge)]
            simpa [build_route] using hrec
          · intro h
            simp only [astarLoop, hpop] at h
            rw [if_pos (beq_iff_eq.mpr hge)] at h
            simp [build_route] at h
        · by_cases hcl : cur.attraction_id ∈ st.closed_set
          · -- stale pop: skip, consuming one fuel unit
            have inv1 := skip_step_inv inv hpop hcl
            have hstep : astarLoop db w scores zero_heuristic end_attr
                goal_id mode (fuel + 1) st
                = astarLoop db w scores zero_heuristic end_attr goal_id mode
                  fuel { st with open_set := rest,
                                 nodes_explored := st.nodes_explored + 1 } := by
              simp only [astarLoop, hpop]
              rw [if_neg (by simp [hge]), if_pos (by simpa using hcl)]
            rw [hstep]
            obtain ⟨h1, h2⟩ := ih _ inv1 ⟨p0, hp0⟩
            refine ⟨h1, fun h => ?_⟩
            have h3 := h2 h
            rw [h3]
            show st.nodes_explored + 1 + fuel = st.nodes_explored + (fuel + 1)
            omega
          · -- fresh pop: close the node and relax its out-edges
            obtain ⟨inv2, hg2, hgnn⟩ := close_step_inv hwc inv hpop hcl hge
            have hconns : ∀ e ∈ getNeighborsA db cur.attraction_id,
                e ∈ db.connections ∧ e.from_id = cur.attraction_id := by
              intro e he
              have h' := List.mem_filter.mp he
              exact ⟨h'.1, by simpa using h'.2⟩
            have hclmem : cur.attraction_id
                ∈ st.closed_set ++ [cur.attraction_id] :=
              List.mem_append_right _ (List.mem_singleton.mpr rfl)
            obtain ⟨inv3, hcl3, hne3⟩ := relaxFold_preserves hwc hwf hgnn
              (getNeighborsA db cur.attraction_id)
              { st with open_set := rest,
                        closed_set := st.closed_set ++ [cur.attraction_id],
                        nodes_explored := st.nodes_explored + 1 }
              hconns hclmem hg2 inv2
            have hstep : astarLoop db w scores zero_heuristic end_attr
                goal_id mode (fuel + 1) st
                = astarLoop db w scores zero_heuristic end_attr goal_id mode
                  fuel ((getNeighborsA db cur.attraction_id).foldl
                    (relaxOne db w scores zero_heuristic end_attr cur)
                    { st with open_set := rest,
                              closed_set := st.closed_set
                                ++ [cur.attraction_id],
                              nodes_explored := st.nodes_explored + 1 }) := by
              simp only [astarLoop, hpop]
              rw [if_neg (by simp [hge]), if_neg (by simpa using hcl)]
            rw [hstep]
            obtain ⟨h1, h2⟩ := ih _ inv3 ⟨p0, hp0⟩
            refine ⟨h1, fun h => ?_⟩
            have h3 := h2 h
            rw [h3, hne3]
            show st.nodes_explored + 1 + fuel = st.nodes_explored + (fuel + 1)
            omega

/-- The initial state of `find_path` satisfies the loop invariant. -/
theorem astarInit_inv {db : SearchDB} {w : OptWeights}
    {scores : List (ℕ × ℚ)} {start_id goal_id : ℕ}
    {start_attr end_attr : AttractionRow} (hid : start_attr.id = start_id) :
    AInv db w scores start_id goal_id
      (astarInit zero_heuristic start_attr end_attr) := by
  subst hid
  refine ⟨?_, ?_, ?_, ?_, ?_, ?_, ?_, ?_, ?_, ?_, ?_, ?_, ?_⟩
    <;> (try dsimp only [astarInit])
  · intro v c h
    by_cases hv : v = start_attr.id
    · subst hv
      rw [lookup_cons_self] at h
      exact ⟨[], ConnPath.nil _, by simp [pathCost]; exact Option.some.inj h⟩
    · rw [lookup_cons_ne _ _ hv] at h
      simp [List.lookup] at h
  · exact lookup_cons_self _ _ _
  · intro u hu
    exact absurd hu (List.not_mem_nil u)
  · intro u hu
    exact absurd hu (List.not_mem_nil u)
  · intro v c _ h
    by_cases hv : v = start_attr.id
    · subst hv
      rw [lookup_cons_self] at h
      exact ⟨⟨start_attr.id, 0, zero_heuristic start_attr end_attr,
        Option.none⟩, List.mem_singleton.mpr rfl, rfl, Option.some.inj h⟩
    · rw [lookup_cons_ne _ _ hv] at h
      simp [List.lookup] at h
  · intro n hn
    rw [List.mem_singleton] at hn
    subst hn
    exact ⟨0, lookup_cons_self _ _ _, le_refl 0⟩
  · intro n hn
    rw [List.mem_singleton] at hn
    subst hn
    rfl
  · intro v u h
    simp [List.lookup] at h
  · intro v u h
    simp [List.lookup] at h
  · rfl
  · intro v c h
    by_cases hv : v = start_attr.id
    · exact Or.inl hv
    · rw [lookup_cons_ne _ _ hv] at h
      simp [List.lookup] at h
  · exact List.nodup_nil
  · exact List.not_mem_nil goal_id

/-- C3: on any finite connection graph whose `CostCalculator` edge costs
are nonnegative and whose edges lead to stored attractions, `find_path`
under the `"zero"` heuristic is an exact Dijkstra: whenever some
start-to-goal connection chain exists and the returned exploration count
stays below the iteration cap, the call reports `path_found` and its
attraction sequence traces a real connection chain whose accumulated
edge cost is the minimum over all start-to-goal chains. -/
theorem c3_find_path_zero_heuristic_dijkstra
    {db : SearchDB} {mode : String} {scores : List (ℕ × ℚ)}
    {euclidean manhattan : AttractionRow → AttractionRow → ℚ}
    {start_id goal_id max_iterations : ℕ}
    {route : OptimizedRoute} {fin : AState}
    (hwc : ∀ c ∈ db.connections,
      0 ≤ edgeCost (get_optimization_weights mode) scores c)
    (hwf : ∀ c ∈ db.connections, ∃ a ∈ db.attractions, a.id = c.to_id)
    (hex : ∃ p0, ConnPath db start_id goal_id p0)
    (hrun : find_path db mode
      (get_heuristic_function "zero" euclidean manhattan) scores
      start_id goal_id max_iterations = .ok (route, fin))
    (hcap : fin.nodes_explored < max_iterations) :
    route.path_found = true ∧
    ∃ p, ConnPath db start_id goal_id p ∧
      IsShortestCost db (get_optimization_weights mode) scores
        start_id goal_id
        (pathCost (get_optimization_weights mode) scores p) ∧
      route.attractions = pathNodes start_id p := by
  have hzero : get_heuristic_function "zero" euclidean manhattan
      = zero_heuristic := by
    simp [get_heuristic_function]
  rw [hzero] at hrun
  rcases hfs : db.attractions.find? (fun a => a.id == start_id) with _ | sa
  · rw [find_path, hfs] at hrun
    exact absurd hrun (by simp)
  · rcases hfg : db.attractions.find? (fun a => a.id == goal_id) with _ | ga
    · rw [find_path, hfs] at hrun
      rw [hfg] at hrun
      exact absurd hrun (by simp)
    · rw [find_path, hfs] at hrun
      rw [hfg] at hrun
      have heq := Except.ok.inj hrun
      have hid : sa.id = start_id := by simpa using List.find?_some hfs
      have hmain := @astarLoop_correct db (get_optimization_weights mode)
        scores start_id goal_id ga mode hwc hwf max_iterations
        (astarInit zero_heuristic sa ga) (astarInit_inv hid) hex
      rw [heq] at hmain
      have hpf : route.path_found = true := by
        by_contra hnf
        rw [Bool.not_eq_true] at hnf
        have h2 : fin.nodes_explored = 0 + max_iterations := hmain.2 hnf
        omega
      obtain ⟨p, hp, hshort, hattr⟩ := hmain.1 hpf
      exact ⟨hpf, p, hp, hshort, hattr⟩

set_option maxHeartbeats 4000000 in
/-- C3 witness: the Dijkstra-equivalence theorem applied to the concrete
three-node fixture (start 1, goal 3, mode `distance`, iteration cap 4):
every hypothesis is discharged by computation, and the run returns the
route `[1, 3]` after exploring 3 nodes. -/
theorem c3_dijkstra_witness :
    (∀ c ∈ c3db.connections,
      0 ≤ edgeCost (get_optimization_weights "distance") [] c) ∧
    (∀ c ∈ c3db.connections, ∃ a ∈ c3db.attractions, a.id = c.to_id) ∧
    (∃ p0, ConnPath c3db 1 3 p0) ∧
    find_path c3db "distance"
      (get_heuristic_function "zero" (fun _ _ => 0) (fun _ _ => 0)) [] 1 3 4
      = .ok (c3route, c3fin) ∧
    c3fin.nodes_explored < 4 ∧
    (c3route.path_found = true ∧
      ∃ p, ConnPath c3db 1 3 p ∧
        IsShortestCost c3db (get_optimization_weights "distance") [] 1 3
          (pathCost (get_optimization_weights "distance") [] p) ∧
        c3route.attractions = pathNodes 1 p) := by
  have h1 : ∀ c ∈ c3db.connections,
      0 ≤ edgeCost (get_optimization_weights "distance") [] c := by
    intro c hc
    have hc' : c ∈ [(⟨1, 2, 0, 0, "walking", 0⟩ : ConnectionRow),
      ⟨2, 3, 0, 0, "walking", 0⟩, ⟨1, 3, 0, 0, "car", 0⟩] := hc
    fin_cases hc' <;>
      norm_num [edgeCost, calculate_edge_cost, scoreOf,
        get_optimization_weights, List.lookup]
  have h2 : ∀ c ∈ c3db.connections,
      ∃ a ∈ c3db.attractions, a.id = c.to_id := by
    intro c hc
    have hc' : c ∈ [(⟨1, 2, 0, 0, "walking", 0⟩ : ConnectionRow),
      ⟨2, 3, 0, 0, "walking", 0⟩, ⟨1, 3, 0, 0, "car", 0⟩] := hc
    fin_cases hc'
    · exact ⟨⟨2, "parque", Option.none, Option.none⟩, by simp [c3db], rfl⟩
    · exact ⟨⟨3, "playa", Option.none, Option.none⟩, by simp [c3db], rfl⟩
    · exact ⟨⟨3, "playa", Option.none, Option.none⟩, by simp [c3db], rfl⟩
  have h3 : ∃ p0, ConnPath c3db 1 3 p0 :=
    ⟨[⟨1, 3, 0, 0, "car", 0⟩],
      ConnPath.cons (by simp [c3db]) rfl (ConnPath.nil 3)⟩
  have h4 : find_path c3db "distance"
      (get_heuristic_function "zero" (fun _ _ => 0) (fun _ _ => 0)) [] 1 3 4
      = .ok (c3route, c3fin) := by
    have hzero : get_heuristic_function "zero"
        (fun (_ _ : AttractionRow) => (0:ℚ)) (fun _ _ => 0)
        = zero_heuristic := by
      simp [get_heuristic_function]
    have hw : get_optimization_weights "distance" = ⟨7/10, 1/5, 1/10, 0⟩ := by
      norm_num [get_optimization_weights]
    rw [hzero]
    norm_num [find_path, c3db]
    rw [hw]
    norm_num [astarLoop, astarInit, popMin, relaxOne, getNeighborsA,
      reconstruct_path, walkParents, build_route, segmentsOf, segmentFor,
      edgeCost, calculate_edge_cost, scoreOf, zero_heuristic, AStarNode.f,
      c3db, c3route, c3fin, lookup_cons_self, lookup_cons_ne]
  have h5 : c3fin.nodes_explored < 4 := by decide
  exact ⟨h1, h2, h3, h4, h5,
    c3_find_path_zero_heuristic_dijkstra h1 h2 h3 h4 h5⟩

/-- Bind of a successful `Except` computation reduces. -/
theorem except_bind_ok {ε α β : Type} (a : α) (f : α → Except ε β) :
    (Except.ok a : Except ε α) >>= f = f a := rfl

/-- `pure` on `Except` is `Except.ok`. -/
theorem except_pure {ε α : Type} (a : α) :
    (pure a : Except ε α) = Except.ok a := rfl

/-- When every remaining stop is reachable (its A* call succeeds and
finds a path), the best-stop selection fold of `chooseBest` succeeds,
returns a stop from the list (or keeps a prior best), and returns `none`
only when it started from `none` with an empty list. -/
theorem chooseFold_total {db : SearchDB} {mode : String}
    {h : AttractionRow → AttractionRow → ℚ} {scores : List (ℕ × ℚ)}
    {cur : ℕ} :
    ∀ (stops : List ℕ) (acc₀ : Option (ℕ × OptimizedRoute × ℚ)),
    (∀ v ∈ stops, ∃ r st, find_path db mode h scores cur v 10000
      = .ok (r, st) ∧ r.path_found = true) →
    ∃ res, stops.foldlM
      (fun acc next_stop => do
        let (route, _) ← find_path db mode h scores cur next_stop 10000
        if route.path_found then
          let route_cost := route.total_distance / 10000 +
            (route.total_time : ℚ) / 120 + route.total_cost / 100
          match acc with
          | some (_, _, best_cost) =>
              if route_cost < best_cost then
                pure (some (next_stop, route, route_cost))
              else pure acc
          | Option.none => pure (some (next_stop, route, route_cost))
        else pure acc) acc₀ = .ok res ∧
    (∀ s r c, res = some (s, r, c) → s ∈ stops ∨ acc₀ = some (s, r, c)) ∧
    (res = Option.none → acc₀ = Option.none ∧ stops = []) := by
  intro stops
  induction stops with
  | nil =>
      intro acc₀ _
      exact ⟨acc₀, rfl, fun s r c hs => Or.inr hs, fun hn => ⟨hn, rfl⟩⟩
  | cons v rest ih =>
      intro acc₀ hre
      obtain ⟨r, st, hfp, hpf⟩ := hre v (List.mem_cons_self v rest)
      have hre' := fun v' hv' => hre v' (List.mem_cons_of_mem v hv')
      rcases acc₀ with _ | ⟨⟨s₀, r₀, c₀⟩⟩
      · simp only [List.foldlM_cons, hfp, except_bind_ok, hpf,
          eq_self_iff_true, if_true]
        obtain ⟨res, hres, hmem, hnn⟩ := ih (some (v, r,
          r.total_distance / 10000 + (r.total_time : ℚ) / 120 +
            r.total_cost / 100)) hre'
        refine ⟨res, hres, ?_, ?_⟩
        · intro s r' c hs
          rcases hmem s r' c hs with hin | hacc
          · exact Or.inl (List.mem_cons_of_mem v hin)
          · simp only [Option.some.injEq, Prod.mk.injEq] at hacc
            exact Or.inl (hacc.1 ▸ List.mem_cons_self v rest)
        · intro hn
          exact absurd ((hnn hn).1) (by simp)
      · simp only [List.foldlM_cons, hfp, except_bind_ok, hpf,
          eq_self_iff_true, if_true]
        by_cases hlt : r.total_distance / 10000 +
            (r.total_time : ℚ) / 120 + r.total_cost / 100 < c₀
        · rw [if_pos hlt]
          obtain ⟨res, hres, hmem, hnn⟩ := ih (some (v, r,
            r.total_distance / 10000 + (r.total_time : ℚ) / 120 +
              r.total_cost / 100)) hre'
          refine ⟨res, hres, ?_, ?_⟩
          · intro s r' c hs
            rcases hmem s r' c hs with hin | hacc
            · exact Or.inl (List.mem_cons_of_mem v hin)
            · simp only [Option.some.injEq, Prod.mk.injEq] at hacc
              exact Or.inl (hacc.1 ▸ List.mem_cons_self v rest)
          · intro hn
            exact absurd ((hnn hn).1) (by simp)
        · rw [if_neg hlt]
          obtain ⟨res, hres, hmem, hnn⟩ := ih (some (s₀, r₀, c₀)) hre'
          refine ⟨res, hres, ?_, ?_⟩
          · intro s r' c hs
            rcases hmem s r' c hs with hin | hacc
            · exact Or.inl (List.mem_cons_of_mem v hin)
            · exact Or.inr hacc
          · intro hn
            exact absurd ((hnn hn).1) (by simp)

/-- When every remaining stop's A* call merely succeeds (with or without
a found path), the best-stop selection fold of `chooseBest` succeeds; it
returns `none` only when it started from `none` and every stop's route
came back not found. -/
theorem chooseFold_ok {db : SearchDB} {mode : String}
    {h : AttractionRow → AttractionRow → ℚ} {scores : List (ℕ × ℚ)}
    {cur : ℕ} :
    ∀ (stops : List ℕ) (acc₀ : Option (ℕ × OptimizedRoute × ℚ)),
    (∀ v ∈ stops, ∃ r st, find_path db mode h scores cur v 10000
      = .ok (r, st)) →
    ∃ res, stops.foldlM
      (fun acc next_stop => do
        let (route, _) ← find_path db mode h scores cur next_stop 10000
        if route.path_found then
          let route_cost := route.total_distance / 10000 +
            (route.total_time : ℚ) / 120 + route.total_cost / 100
          match acc with
          | some (_, _, best_cost) =>
              if route_cost < best_cost then
                pure (some (next_stop, route, route_cost))
              else pure acc
          | Option.none => pure (some (next_stop, route, route_cost))
        else pure acc) acc₀ = .ok res ∧
    (∀ s r c, res = some (s, r, c) → s ∈ stops ∨ acc₀ = some (s, r, c)) ∧
    (res = Option.none → acc₀ = Option.none ∧
      ∀ v ∈ stops, ∃ r st, find_path db mode h scores cur v 10000
        = .ok (r, st) ∧ r.path_found = false) := by
  intro stops
  induction stops with
  | nil =>
      intro acc₀ _
      exact ⟨acc₀, rfl, fun s r c hs => Or.inr hs,
        fun hn => ⟨hn, by simp⟩⟩
  | cons v rest ih =>
      intro acc₀ hre
      obtain ⟨r, st, hfp⟩ := hre v (List.mem_cons_self v rest)
      have hre' := fun v' hv' => hre v' (List.mem_cons_of_mem v hv')
      rcases hpf : r.path_found with _ | _
      · -- this stop's route was not found: the accumulator passes through
        simp only [List.foldlM_cons, hfp, except_bind_ok, hpf]
        rw [if_neg (by simp)]
        obtain ⟨res, hres, hmem, hnn⟩ := ih acc₀ hre'
        refine ⟨res, hres, ?_, ?_⟩
        · intro s r' c hs
          rcases hmem s r' c hs with hin | hacc
          · exact Or.inl (List.mem_cons_of_mem v hin)
          · exact Or.inr hacc
        · intro hn
          obtain ⟨ha, hall⟩ := hnn hn
          refine ⟨ha, ?_⟩
          intro v' hv'
          rcases List.mem_cons.mp hv' with rfl | hv''
          · exact ⟨r, st, hfp, hpf⟩
          · exact hall v' hv''
      · -- found: the accumulator becomes (or stays) a `some`
        rcases acc₀ with _ | ⟨⟨s₀, r₀, c₀⟩⟩
        · simp only [List.foldlM_cons, hfp, except_bind_ok, hpf,
            eq_self_iff_true, if_true]
          obtain ⟨res, hres, hmem, hnn⟩ := ih (some (v, r,
            r.total_distance / 10000 + (r.total_time : ℚ) / 120 +
              r.total_cost / 100)) hre'
          refine ⟨res, hres, ?_, ?_⟩
          · intro s r' c hs
            rcases hmem s r' c hs with hin | hacc
            · exact Or.inl (List.mem_cons_of_mem v hin)
            · simp only [Option.some.injEq, Prod.mk.injEq] at hacc
              exact Or.inl (hacc.1 ▸ List.mem_cons_self v rest)
          · intro hn
            exact absurd ((hnn hn).1) (by simp)
        · simp only [List.foldlM_cons, hfp, except_bind_ok, hpf,
            eq_self_iff_true, if_true]
          by_cases hlt : r.total_distance / 10000 +
              (r.total_time : ℚ) / 120 + r.total_cost / 100 < c₀
          · rw [if_pos hlt]
            obtain ⟨res, hres, hmem, hnn⟩ := ih (some (v, r,
              r.total_distance / 10000 + (r.total_time : ℚ) / 120 +
                r.total_cost / 100)) hre'
            refine ⟨res, hres, ?_, ?_⟩
            · intro s r' c hs
              rcases hmem s r' c hs with hin | hacc
              · exact Or.inl (List.mem_cons_of_mem v hin)
              · simp only [Option.some.injEq, Prod.mk.injEq] at hacc
                exact Or.inl (hacc.1 ▸ List.mem_cons_self v rest)
            · intro hn
              exact absurd ((hnn hn).1) (by simp)
          · rw [if_neg hlt]
            obtain ⟨res, hres, hmem, hnn⟩ := ih (some (s₀, r₀, c₀)) hre'
            refine ⟨res, hres, ?_, ?_⟩
            · intro s r' c hs
              rcases hmem s r' c hs with hin | hacc
              · exact Or.inl (List.mem_cons_of_mem v hin)
              · exact Or.inr hacc
            · intro hn
              exact absurd ((hnn hn).1) (by simp)

/-- With enough fuel and full mutual reachability, the greedy tour loop
empties the remaining-stops list, appending to the visit sequence a
permutation of the remaining stops; the final location is the start or
one of the stops. -/
theorem greedyLoop_visits_all {db : SearchDB} {mode : String}
    {h : AttractionRow → AttractionRow → ℚ} {scores : List (ℕ × ℚ)} :
    ∀ (fuel : ℕ) (cur : ℕ) (remaining : List ℕ) (acc : GreedyAcc),
    remaining.length ≤ fuel →
    (∀ u v, (u = cur ∨ u ∈ remaining) → v ∈ remaining →
      ∃ r st, find_path db mode h scores u v 10000 = .ok (r, st) ∧
        r.path_found = true) →
    ∃ cur' acc', greedyLoop db mode h scores fuel cur remaining acc
        = .ok (cur', [], acc') ∧
      List.Perm acc'.visit_sequence (acc.visit_sequence ++ remaining) ∧
      (cur' = cur ∨ cur' ∈ remaining) := by
  intro fuel
  induction fuel with
  | zero =>
      intro cur remaining acc hlen _
      have hnil : remaining = [] := List.eq_nil_of_length_eq_zero
        (Nat.le_zero.mp hlen)
      subst hnil
      exact ⟨cur, acc, rfl, by simp, Or.inl rfl⟩
  | succ fuel ih =>
      intro cur remaining acc hlen hre
      rcases remaining with _ | ⟨w, rest⟩
      · exact ⟨cur, acc, by simp [greedyLoop], by simp, Or.inl rfl⟩
      · obtain ⟨res, hfold, hmem, hnn⟩ := chooseFold_total (w :: rest)
          Option.none (fun v hv => hre cur v (Or.inl rfl) hv)
        have hcb : chooseBest db mode h scores cur (w :: rest)
            = .ok res := hfold
        rcases res with _ | ⟨⟨bn, br, bc⟩⟩
        · exact absurd (hnn rfl).2 (by simp)
        · have hbn : bn ∈ w :: rest := by
            rcases hmem bn br bc rfl with hin | habs
            · exact hin
            · cases habs
          have hlen' : ((w :: rest).erase bn).length ≤ fuel := by
            rw [List.length_erase_of_mem hbn]
            simpa using Nat.succ_le_succ_iff.mp hlen
          have hre' : ∀ u v, (u = bn ∨ u ∈ (w :: rest).erase bn) →
              v ∈ (w :: rest).erase bn →
              ∃ r st, find_path db mode h scores u v 10000 = .ok (r, st) ∧
                r.path_found = true := by
            intro u v hu hv
            refine hre u v ?_ (List.mem_of_mem_erase hv)
            rcases hu with rfl | hu'
            · exact Or.inr hbn
            · exact Or.inr (List.mem_of_mem_erase hu')
          obtain ⟨cur'', acc'', heq, hperm, hcur⟩ := ih bn
            ((w :: rest).erase bn)
            { extendAcc acc br with
              visit_sequence := acc.visit_sequence ++ [bn] } hlen' hre'
          refine ⟨cur'', acc'', ?_, ?_, ?_⟩
          · show (if (w :: rest).isEmpty = true then
                Except.ok (cur, w :: rest, acc)
              else do
                let best ← chooseBest db mode h scores cur (w :: rest)
                match best with
                | Option.none => .ok (cur, w :: rest, acc)
                | some (best_next, best_route, _) =>
                    greedyLoop db mode h scores fuel best_next
                      ((w :: rest).erase best_next)
                      { extendAcc acc best_route with
                        visit_sequence := acc.visit_sequence ++ [best_next] })
              = Except.ok (cur'', [], acc'')
            rw [if_neg (by simp), hcb, except_bind_ok]
            exact heq
          · refine hperm.trans ?_
            have h1 : (acc.visit_sequence ++ [bn]) ++ (w :: rest).erase bn
                = acc.visit_sequence ++ (bn :: (w :: rest).erase bn) := by
              simp
            rw [h1]
            exact List.Perm.append_left _ (List.perm_cons_erase hbn).symm
          · rcases hcur with rfl | hcur'
            · exact Or.inr hbn
            · exact Or.inr (List.mem_of_mem_erase hcur')

/-- For any run with enough fuel whose A* calls do not error, the greedy
tour loop ends at some location with some leftover stops: the visit
sequence plus the leftover stops is a permutation of the initial
remaining stops, the leftover list is a sublist of it, and — the
early-stop characterization — whenever stops are left over, every one of
them is unreachable (route not found) from the stopping location. -/
theorem greedyLoop_general {db : SearchDB} {mode : String}
    {h : AttractionRow → AttractionRow → ℚ} {scores : List (ℕ × ℚ)} :
    ∀ (fuel : ℕ) (cur : ℕ) (remaining : List ℕ) (acc : GreedyAcc),
    remaining.length ≤ fuel →
    (∀ u v, (u = cur ∨ u ∈ remaining) → v ∈ remaining →
      ∃ r st, find_path db mode h scores u v 10000 = .ok (r, st)) →
    ∃ cur' remaining' acc',
      greedyLoop db mode h scores fuel cur remaining acc
        = .ok (cur', remaining', acc') ∧
      List.Perm (acc'.visit_sequence ++ remaining')
        (acc.visit_sequence ++ remaining) ∧
      (cur' = cur ∨ cur' ∈ remaining) ∧
      List.Sublist remaining' remaining ∧
      (remaining' ≠ [] →
        ∀ v ∈ remaining', ∃ r st,
          find_path db mode h scores cur' v 10000 = .ok (r, st) ∧
            r.path_found = false) := by
  intro fuel
  induction fuel with
  | zero =>
      intro cur remaining acc hlen _
      have hnil : remaining = [] := List.eq_nil_of_length_eq_zero
        (Nat.le_zero.mp hlen)
      subst hnil
      exact ⟨cur, [], acc, rfl, List.Perm.refl _, Or.inl rfl,
        List.Sublist.refl _, fun hne => absurd rfl hne⟩
  | succ fuel ih =>
      intro cur remaining acc hlen hre
      rcases remaining with _ | ⟨w, rest⟩
      · exact ⟨cur, [], acc, by simp [greedyLoop], List.Perm.refl _,
          Or.inl rfl, List.Sublist.refl _, fun hne => absurd rfl hne⟩
      · obtain ⟨res, hfold, hmem, hnn⟩ := chooseFold_ok (w :: rest)
          Option.none (fun v hv => hre cur v (Or.inl rfl) hv)
        have hcb : chooseBest db mode h scores cur (w :: rest)
            = .ok res := hfold
        rcases res with _ | ⟨⟨bn, br, bc⟩⟩
        · -- dead end: no remaining stop is reachable from `cur`
          obtain ⟨_, hall⟩ := hnn rfl
          refine ⟨cur, w :: rest, acc, ?_, List.Perm.refl _, Or.inl rfl,
            List.Sublist.refl _, fun _ => hall⟩
          show (if (w :: rest).isEmpty = true then
              Except.ok (cur, w :: rest, acc)
            else do
              let best ← chooseBest db mode h scores cur (w :: rest)
              match best with
              | Option.none => .ok (cur, w :: rest, acc)
              | some (best_next, best_route, _) =>
                  greedyLoop db mode h scores fuel best_next
                    ((w :: rest).erase best_next)
                    { extendAcc acc best_route with
                      visit_sequence := acc.visit_sequence ++ [best_next] })
            = Except.ok (cur, w :: rest, acc)
          rw [if_neg (by simp), hcb, except_bind_ok]
        · have hbn : bn ∈ w :: rest := by
            rcases hmem bn br bc rfl with hin | habs
            · exact hin
            · cases habs
          have hlen' : ((w :: rest).erase bn).length ≤ fuel := by
            rw [List.length_erase_of_mem hbn]
            simpa using Nat.succ_le_succ_iff.mp hlen
          have hre' : ∀ u v, (u = bn ∨ u ∈ (w :: rest).erase bn) →
              v ∈ (w :: rest).erase bn →
              ∃ r st, find_path db mode h scores u v 10000 = .ok (r, st) := by
            intro u v hu hv
            refine hre u v ?_ (List.mem_of_mem_erase hv)
            rcases hu with rfl | hu'
            · exact Or.inr hbn
            · exact Or.inr (List.mem_of_mem_erase hu')
          obtain ⟨cur'', remaining'', acc'', heq, hperm, hcur, hsub, hdead⟩ :=
            ih bn ((w :: rest).erase bn)
              { extendAcc acc br with
                visit_sequence := acc.visit_sequence ++ [bn] } hlen' hre'
          refine ⟨cur'', remaining'', acc'', ?_, ?_, ?_, ?_, hdead⟩
          · show (if (w :: rest).isEmpty = true then
                Except.ok (cur, w :: rest, acc)
              else do
                let best ← chooseBest db mode h scores cur (w :: rest)
                match best with
                | Option.none => .ok (cur, w :: rest, acc)
                | some (best_next, best_route, _) =>
                    greedyLoop db mode h scores fuel best_next
                      ((w :: rest).erase best_next)
                      { extendAcc acc best_route with
                        visit_sequence := acc.visit_sequence ++ [best_next] })
              = Except.ok (cur'', remaining'', acc'')
            rw [if_neg (by simp), hcb, except_bind_ok]
            exact heq
          · refine hperm.trans ?_
            have h1 : (acc.visit_sequence ++ [bn]) ++ (w :: rest).erase bn
                = acc.visit_sequence ++ (bn :: (w :: rest).erase bn) := by
              simp
            rw [h1]
            exact List.Perm.append_left _ (List.perm_cons_erase hbn).symm
          · rcases hcur with rfl | hcur'
            · exact Or.inr hbn
            · exact Or.inr (List.mem_of_mem_erase hcur')
          · exact hsub.trans (List.erase_sublist bn (w :: rest))

/-- C6: `optimize_multi_stop` with a nonempty waypoint list and a stored
start attraction.  First part: when every waypoint is reachable (A*
succeeds with a found path) from the start and from every waypoint, and
the returns to the start do not error, the call succeeds, its visit
sequence is a permutation of the requested waypoints (each chosen stop
exactly once, none omitted for distinct waypoints), and
`waypoints_visited = waypoints_requested`.  Second part: for any run
whose A* calls do not error, the tour ends at some location `cur'` with
some leftover waypoints `remaining'`; the visit sequence plus the
leftovers is a permutation of the request, and whenever the tour stops
early — at any point mid-tour — every leftover waypoint is unreachable
(route not found) from `cur'`, the leftovers are dropped, and
`waypoints_visited` is strictly below `waypoints_requested`. -/
theorem c6_optimize_multi_stop_waypoints {db : SearchDB} {mode : String}
    {h : AttractionRow → AttractionRow → ℚ} {scores : List (ℕ × ℚ)}
    {start_id : ℕ} {waypoints : List ℕ}
    (hwne : waypoints ≠ [])
    (hstart : ∃ sa, db.attractions.find? (fun a => a.id == start_id)
      = some sa) :
    ((∀ u v, (u = start_id ∨ u ∈ waypoints) → v ∈ waypoints →
        ∃ r st, find_path db mode h scores u v 10000 = .ok (r, st) ∧
          r.path_found = true) →
      (∀ u, (u = start_id ∨ u ∈ waypoints) →
        ∃ r st, find_path db mode h scores u start_id 10000 = .ok (r, st)) →
      ∃ msr, optimize_multi_stop db mode h scores start_id waypoints
          Option.none = .ok msr ∧
        List.Perm msr.visit_sequence waypoints ∧
        msr.waypoints_visited = waypoints.length ∧
        msr.waypoints_requested = waypoints.length) ∧
    ((∀ u v, (u = start_id ∨ u ∈ waypoints) →
        (v = start_id ∨ v ∈ waypoints) →
        ∃ r st, find_path db mode h scores u v 10000 = .ok (r, st)) →
      ∃ msr cur' remaining',
        optimize_multi_stop db mode h scores start_id waypoints
          Option.none = .ok msr ∧
        List.Perm (msr.visit_sequence ++ remaining') waypoints ∧
        List.Sublist remaining' waypoints ∧
        msr.waypoints_requested = waypoints.length ∧
        msr.waypoints_visited = waypoints.length - remaining'.length ∧
        (remaining' ≠ [] →
          (∀ v ∈ remaining', ∃ r st,
            find_path db mode h scores cur' v 10000 = .ok (r, st) ∧
              r.path_found = false) ∧
          msr.waypoints_visited < msr.waypoints_requested)) := by
  obtain ⟨sa, hfs⟩ := hstart
  have hne : waypoints.isEmpty = false := by
    rcases waypoints with _ | ⟨w, rest⟩
    · exact absurd rfl hwne
    · rfl
  constructor
  · intro hre hback
    obtain ⟨cur', acc', heq, hperm, hcur⟩ := greedyLoop_visits_all
      waypoints.length start_id waypoints ⟨[start_id], [], 0, 0, 0, 0, []⟩
      (le_refl _) hre
    have hvs : List.Perm acc'.visit_sequence waypoints := by
      simpa using hperm
    simp only [optimize_multi_stop, hne, Bool.false_eq_true, if_false, hfs,
      Option.getD_none, heq, except_bind_ok]
    by_cases hce : cur' = start_id
    · rw [if_neg (by simp [hce])]
      refine ⟨_, rfl, ?_, ?_, ?_⟩
      · exact hvs
      · simp
      · rfl
    · rw [if_pos hce]
      obtain ⟨r, st, hfb⟩ := hback cur' hcur
      rw [hfb]
      simp only [except_bind_ok]
      rcases hb : r.path_found with _ | _
      · rw [if_neg (by simp)]
        refine ⟨_, rfl, ?_, ?_, ?_⟩
        · exact hvs
        · simp
        · rfl
      · rw [if_pos rfl]
        refine ⟨_, rfl, ?_, ?_, ?_⟩
        · show List.Perm (extendAcc acc' r).visit_sequence waypoints
          exact hvs
        · simp
        · rfl
  · intro hok
    obtain ⟨cur', remaining', acc', heq, hperm, hcur, hsub, hdead⟩ :=
      greedyLoop_general waypoints.length start_id waypoints
        ⟨[start_id], [], 0, 0, 0, 0, []⟩ (le_refl _)
        (fun u v hu hv => hok u v hu (Or.inr hv))
    have hvs : List.Perm (acc'.visit_sequence ++ remaining') waypoints := by
      simpa using hperm
    have hlt : remaining' ≠ [] →
        waypoints.length - remaining'.length < waypoints.length := by
      intro hne'
      have h1 : 0 < remaining'.length := List.length_pos.mpr hne'
      have h2 : remaining'.length ≤ waypoints.length := hsub.length_le
      have h3 : 0 < waypoints.length := List.length_pos.mpr hwne
      omega
    simp only [optimize_multi_stop, hne, Bool.false_eq_true, if_false, hfs,
      Option.getD_none, heq, except_bind_ok]
    by_cases hce : cur' = start_id
    · rw [if_neg (by simp [hce])]
      refine ⟨_, cur', remaining', rfl, hvs, hsub, rfl, rfl, ?_⟩
      intro hne'
      exact ⟨hdead hne', hlt hne'⟩
    · rw [if_pos hce]
      obtain ⟨r, st, hfb⟩ := hok cur' start_id hcur (Or.inl rfl)
      rw [hfb]
      simp only [except_bind_ok]
      rcases hb : r.path_found with _ | _
      · rw [if_neg (by simp)]
        refine ⟨_, cur', remaining', rfl, hvs, hsub, rfl, rfl, ?_⟩
        intro hne'
        exact ⟨hdead hne', hlt hne'⟩
      · rw [if_pos rfl]
        refine ⟨_, cur', remaining', rfl, ?_, hsub, rfl, rfl, ?_⟩
        · show List.Perm ((extendAcc acc' r).visit_sequence ++ remaining')
            waypoints
          exact hvs
        · intro hne'
          exact ⟨hdead hne', hlt hne'⟩

set_option maxHeartbeats 6000000 in
/-- C6 witness: the multi-stop theorem applied to concrete fixtures.  On
`c6db` (edges both ways between 1 and 2) the single waypoint 2 is
visited exactly once with `waypoints_visited = waypoints_requested = 1`.
On `c6dbM` (edges only between 1 and 2, waypoints `[2, 3]`) the tour
visits 2 and then hits a mid-tour dead end: 3 is unreachable from the
then-current location, so it is dropped and the reported visit count is
strictly below the request.  Every hypothesis is discharged by computing
the thirteen A* runs. -/
theorem c6_multi_stop_witness :
    (([2] : List ℕ) ≠ []) ∧
    (∃ sa, c6db.attractions.find? (fun a => a.id == 1) = some sa) ∧
    (∀ u v, (u = 1 ∨ u ∈ ([2] : List ℕ)) → v ∈ ([2] : List ℕ) →
      ∃ r st, find_path c6db "distance" zero_heuristic [] u v 10000
        = .ok (r, st) ∧ r.path_found = true) ∧
    (∀ u, (u = 1 ∨ u ∈ ([2] : List ℕ)) →
      ∃ r st, find_path c6db "distance" zero_heuristic [] u 1 10000
        = .ok (r, st)) ∧
    (∃ msr, optimize_multi_stop c6db "distance" zero_heuristic [] 1 [2]
        Option.none = .ok msr ∧
      List.Perm msr.visit_sequence [2] ∧
      msr.waypoints_visited = ([2] : List ℕ).length ∧
      msr.waypoints_requested = ([2] : List ℕ).length) ∧
    (([2, 3] : List ℕ) ≠ []) ∧
    (∃ sa, c6dbM.attractions.find? (fun a => a.id == 1) = some sa) ∧
    (∀ u v, (u = 1 ∨ u ∈ ([2, 3] : List ℕ)) →
      (v = 1 ∨ v ∈ ([2, 3] : List ℕ)) →
      ∃ r st, find_path c6dbM "distance" zero_heuristic [] u v 10000
        = .ok (r, st)) ∧
    (∃ msr cur' remaining',
      optimize_multi_stop c6dbM "distance" zero_heuristic [] 1 [2, 3]
        Option.none = .ok msr ∧
      List.Perm (msr.visit_sequence ++ remaining') [2, 3] ∧
      List.Sublist remaining' [2, 3] ∧
      msr.waypoints_requested = ([2, 3] : List ℕ).length ∧
      msr.waypoints_visited = ([2, 3] : List ℕ).length - remaining'.length ∧
      (remaining' ≠ [] →
        (∀ v ∈ remaining', ∃ r st,
          find_path c6dbM "distance" zero_heuristic [] cur' v 10000
            = .ok (r, st) ∧ r.path_found = false) ∧
        msr.waypoints_visited < msr.waypoints_requested)) := by
  have hw : get_optimization_weights "distance" = ⟨7/10, 1/5, 1/10, 0⟩ := by
    norm_num [get_optimization_weights]
  have e12 : find_path c6db "distance" zero_heuristic [] 1 2 10000
      = .ok (⟨true, [1, 2], [⟨1, 2, 0, 0, "walking", 0⟩], 0, 0, 0, 2,
          "distance"⟩,
        ⟨[], [1], [(2, 1)], [(2, 0), (1, 0)], 2⟩) := by
    norm_num [find_path, c6db]
    rw [hw]
    norm_num [astarLoop, astarInit, popMin, relaxOne, getNeighborsA,
      reconstruct_path, walkParents, build_route, segmentsOf, segmentFor,
      edgeCost, calculate_edge_cost, scoreOf, zero_heuristic, AStarNode.f,
      c6db, lookup_cons_self, lookup_cons_ne]
  have e22 : find_path c6db "distance" zero_heuristic [] 2 2 10000
      = .ok (⟨true, [2], [], 0, 0, 0, 1, "distance"⟩,
        ⟨[], [], [], [(2, 0)], 1⟩) := by
    norm_num [find_path, c6db]
    rw [hw]
    norm_num [astarLoop, astarInit, popMin, relaxOne, getNeighborsA,
      reconstruct_path, walkParents, build_route, segmentsOf, segmentFor,
      edgeCost, calculate_edge_cost, scoreOf, zero_heuristic, AStarNode.f,
      c6db, lookup_cons_self, lookup_cons_ne]
  have e11 : find_path c6db "distance" zero_heuristic [] 1 1 10000
      = .ok (⟨true, [1], [], 0, 0, 0, 1, "distance"⟩,
        ⟨[], [], [], [(1, 0)], 1⟩) := by
    norm_num [find_path, c6db]
    rw [hw]
    norm_num [astarLoop, astarInit, popMin, relaxOne, getNeighborsA,
      reconstruct_path, walkParents, build_route, segmentsOf, segmentFor,
      edgeCost, calculate_edge_cost, scoreOf, zero_heuristic, AStarNode.f,
      c6db, lookup_cons_self, lookup_cons_ne]
  have e21 : find_path c6db "distance" zero_heuristic [] 2 1 10000
      = .ok (⟨true, [2, 1], [⟨2, 1, 0, 0, "walking", 0⟩], 0, 0, 0, 2,
          "distance"⟩,
        ⟨[], [2], [(1, 2)], [(1, 0), (2, 0)], 2⟩) := by
    norm_num [find_path, c6db]
    rw [hw]
    norm_num [astarLoop, astarInit, popMin, relaxOne, getNeighborsA,
      reconstruct_path, walkParents, build_route, segmentsOf, segmentFor,
      edgeCost, calculate_edge_cost, scoreOf, zero_heuristic, AStarNode.f,
      c6db, lookup_cons_self, lookup_cons_ne]
  have m11 : find_path c6dbM "distance" zero_heuristic [] 1 1 10000
      = .ok (⟨true, [1], [], 0, 0, 0, 1, "distance"⟩,
        ⟨[], [], [], [(1, 0)], 1⟩) := by
    norm_num [find_path, c6dbM]
    rw [hw]
    norm_num [astarLoop, astarInit, popMin, relaxOne, getNeighborsA,
      reconstruct_path, walkParents, build_route, segmentsOf, segmentFor,
      edgeCost, calculate_edge_cost, scoreOf, zero_heuristic, AStarNode.f,
      c6dbM, lookup_cons_self, lookup_cons_ne]
  have m12 : find_path c6dbM "distance" zero_heuristic [] 1 2 10000
      = .ok (⟨true, [1, 2], [⟨1, 2, 0, 0, "walking", 0⟩], 0, 0, 0, 2,
          "distance"⟩,
        ⟨[], [1], [(2, 1)], [(2, 0), (1, 0)], 2⟩) := by
    norm_num [find_path, c6dbM]
    rw [hw]
    norm_num [astarLoop, astarInit, popMin, relaxOne, getNeighborsA,
      reconstruct_path, walkParents, build_route, segmentsOf, segmentFor,
      edgeCost, calculate_edge_cost, scoreOf, zero_heuristic, AStarNode.f,
      c6dbM, lookup_cons_self, lookup_cons_ne]
  have m13 : find_path c6dbM "distance" zero_heuristic [] 1 3 10000
      = .ok (⟨false, [], [], 0, 0, 0, 2, "distance"⟩,
        ⟨[], [1, 2], [(2, 1)], [(2, 0), (1, 0)], 2⟩) := by
    norm_num [find_path, c6dbM]
    rw [hw]
    norm_num [astarLoop, astarInit, popMin, relaxOne, getNeighborsA,
      reconstruct_path, walkParents, build_route, segmentsOf, segmentFor,
      create_empty_route, edgeCost, calculate_edge_cost, scoreOf,
      zero_heuristic, AStarNode.f, c6dbM, lookup_cons_self, lookup_cons_ne]
  have m21 : find_path c6dbM "distance" zero_heuristic [] 2 1 10000
      = .ok (⟨true, [2, 1], [⟨2, 1, 0, 0, "walking", 0⟩], 0, 0, 0, 2,
          "distance"⟩,
        ⟨[], [2], [(1, 2)], [(1, 0), (2, 0)], 2⟩) := by
    norm_num [find_path, c6dbM]
    rw [hw]
    norm_num [astarLoop, astarInit, popMin, relaxOne, getNeighborsA,
      reconstruct_path, walkParents, build_route, segmentsOf, segmentFor,
      edgeCost, calculate_edge_cost, scoreOf, zero_heuristic, AStarNode.f,
      c6dbM, lookup_cons_self, lookup_cons_ne]
  have m22 : find_path c6dbM "distance" zero_heuristic [] 2 2 10000
      = .ok (⟨true, [2], [], 0, 0, 0, 1, "distance"⟩,
        ⟨[], [], [], [(2, 0)], 1⟩) := by
    norm_num [find_path, c6dbM]
    rw [hw]
    norm_num [astarLoop, astarInit, popMin, relaxOne, getNeighborsA,
      reconstruct_path, walkParents, build_route, segmentsOf, segmentFor,
      edgeCost, calculate_edge_cost, scoreOf, zero_heuristic, AStarNode.f,
      c6dbM, lookup_cons_self, lookup_cons_ne]
  have m23 : find_path c6dbM "distance" zero_heuristic [] 2 3 10000
      = .ok (⟨false, [], [], 0, 0, 0, 2, "distance"⟩,
        ⟨[], [2, 1], [(1, 2)], [(1, 0), (2, 0)], 2⟩) := by
    norm_num [find_path, c6dbM]
    rw [hw]
    norm_num [astarLoop, astarInit, popMin, relaxOne, getNeighborsA,
      reconstruct_path, walkParents, build_route, segmentsOf, segmentFor,
      create_empty_route, edgeCost, calculate_edge_cost, scoreOf,
      zero_heuristic, AStarNode.f, c6dbM, lookup_cons_self, lookup_cons_ne]
  have m31 : find_path c6dbM "distance" zero_heuristic [] 3 1 10000
      = .ok (⟨false, [], [], 0, 0, 0, 1, "distance"⟩,
        ⟨[], [3], [], [(3, 0)], 1⟩) := by
    norm_num [find_path, c6dbM]
    rw [hw]
    norm_num [astarLoop, astarInit, popMin, relaxOne, getNeighborsA,
      reconstruct_path, walkParents, build_route, segmentsOf, segmentFor,
      create_empty_route, edgeCost, calculate_edge_cost, scoreOf,
      zero_heuristic, AStarNode.f, c6dbM, lookup_cons_self, lookup_cons_ne]
  have m32 : find_path c6dbM "distance" zero_heuristic [] 3 2 10000
      = .ok (⟨false, [], [], 0, 0, 0, 1, "distance"⟩,
        ⟨[], [3], [], [(3, 0)], 1⟩) := by
    norm_num [find_path, c6dbM]
    rw [hw]
    norm_num [astarLoop, astarInit, popMin, relaxOne, getNeighborsA,
      reconstruct_path, walkParents, build_route, segmentsOf, segmentFor,
      create_empty_route, edgeCost, calculate_edge_cost, scoreOf,
      zero_heuristic, AStarNode.f, c6dbM, lookup_cons_self, lookup_cons_ne]
  have m33 : find_path c6dbM "distance" zero_heuristic [] 3 3 10000
      = .ok (⟨true, [3], [], 0, 0, 0, 1, "distance"⟩,
        ⟨[], [], [], [(3, 0)], 1⟩) := by
    norm_num [find_path, c6dbM]
    rw [hw]
    norm_num [astarLoop, astarInit, popMin, relaxOne, getNeighborsA,
      reconstruct_path, walkParents, build_route, segmentsOf, segmentFor,
      edgeCost, calculate_edge_cost, scoreOf, zero_heuristic, AStarNode.f,
      c6dbM, lookup_cons_self, lookup_cons_ne]
  have hwne : ([2] : List ℕ) ≠ [] := by simp
  have hwne23 : ([2, 3] : List ℕ) ≠ [] := by simp
  have hs1 : ∃ sa, c6db.attractions.find? (fun a => a.id == 1) = some sa :=
    ⟨⟨1, "museo", Option.none, Option.none⟩, rfl⟩
  have hsM : ∃ sa, c6dbM.attractions.find? (fun a => a.id == 1) = some sa :=
    ⟨⟨1, "museo", Option.none, Option.none⟩, rfl⟩
  have hre : ∀ u v, (u = 1 ∨ u ∈ ([2] : List ℕ)) → v ∈ ([2] : List ℕ) →
      ∃ r st, find_path c6db "distance" zero_heuristic [] u v 10000
        = .ok (r, st) ∧ r.path_found = true := by
    intro u v hu hv
    have hv2 : v = 2 := by simpa using hv
    subst hv2
    rcases hu with rfl | hu'
    · exact ⟨_, _, e12, rfl⟩
    · have hu2 : u = 2 := by simpa using hu'
      subst hu2
      exact ⟨_, _, e22, rfl⟩
  have hback : ∀ u, (u = 1 ∨ u ∈ ([2] : List ℕ)) →
      ∃ r st, find_path c6db "distance" zero_heuristic [] u 1 10000
        = .ok (r, st) := by
    intro u hu
    rcases hu with rfl | hu'
    · exact ⟨_, _, e11⟩
    · have hu2 : u = 2 := by simpa using hu'
      subst hu2
      exact ⟨_, _, e21⟩
  have hok : ∀ u v, (u = 1 ∨ u ∈ ([2, 3] : List ℕ)) →
      (v = 1 ∨ v ∈ ([2, 3] : List ℕ)) →
      ∃ r st, find_path c6dbM "distance" zero_heuristic [] u v 10000
        = .ok (r, st) := by
    intro u v hu hv
    have hu3 : u = 1 ∨ u = 2 ∨ u = 3 := by
      rcases hu with rfl | h'
      · exact Or.inl rfl
      · simpa using Or.inr (by simpa using h' : u = 2 ∨ u = 3)
    have hv3 : v = 1 ∨ v = 2 ∨ v = 3 := by
      rcases hv with rfl | h'
      · exact Or.inl rfl
      · simpa using Or.inr (by simpa using h' : v = 2 ∨ v = 3)
    rcases hu3 with rfl | rfl | rfl <;> rcases hv3 with rfl | rfl | rfl
    · exact ⟨_, _, m11⟩
    · exact ⟨_, _, m12⟩
    · exact ⟨_, _, m13⟩
    · exact ⟨_, _, m21⟩
    · exact ⟨_, _, m22⟩
    · exact ⟨_, _, m23⟩
    · exact ⟨_, _, m31⟩
    · exact ⟨_, _, m32⟩
    · exact ⟨_, _, m33⟩
  exact ⟨hwne, hs1, hre, hback,
    (c6_optimize_multi_stop_waypoints hwne hs1).1 hre hback,
    hwne23, hsM, hok,
    (c6_optimize_multi_stop_waypoints hwne23 hsM).2 hok⟩

end TourismIA
